import Mathlib

set_option maxRecDepth 100000

/-!
Verification of the Sudoku solver in `src/App.jsx` (functions `isValid`,
`solveBoard`, `solveSudoku`, lines 100-169).

The JavaScript values that can reach the solver are modelled by a small
stratified value type: the caller passes `rows` (any value; only arrays of
rows are useful), each row is any value (only arrays of cells are useful),
and each cell is any value (only finite numbers are useful).  Finite
JavaScript numbers are embedded into `ℚ` (every finite IEEE double is a
rational, and `===`, `<`, `>` on finite doubles agree with the rational
operations).  Non-finite numbers (`NaN`, `Infinity`) are collapsed into
`nanOrInf`: the solver only ever compares cells against finite numbers with
`===`, and such comparisons are `false` for every non-finite number.  All
remaining values (undefined, null, booleans, objects, arrays-as-cells) are
collapsed into `obj` for cells and `other` for rows: the code never
distinguishes among them (they fail `Number.isFinite` and `Array.isArray`,
and `===` against a finite number is `false`).

`row.slice()` exists exactly on arrays and strings among the modelled row
values; on the others the call `rows.map((row) => row.slice())` throws a
`TypeError`.  An escaped exception is modelled by the outcome `thrown`.
-/

/-- A JavaScript value sitting in a cell of the board. -/
inductive JSCell : Type where
  /-- a finite JavaScript number -/
  | num (q : ℚ)
  /-- `NaN`, `Infinity` or `-Infinity` -/
  | nanOrInf
  /-- a string -/
  | str (s : String)
  /-- any other value: undefined, null, booleans, objects, arrays -/
  | obj
  deriving DecidableEq

/-- A JavaScript value sitting in a row slot of the board. -/
inductive JSRow : Type where
  /-- an array of cell values -/
  | arr (cells : List JSCell)
  /-- a string: it has `.slice`, but is not an array -/
  | str (s : String)
  /-- any value without a callable `.slice` (numbers, null, undefined, ...) -/
  | other
  deriving DecidableEq

/-- The JavaScript value passed to `solveSudoku` as `rows`. -/
inductive JSInput : Type where
  /-- an array of row values -/
  | arr (rows : List JSRow)
  /-- any non-array value: `Array.isArray(rows)` is false -/
  | notArray
  deriving DecidableEq

/-- `board[r]`.  Out-of-range indices (never used by the code on a 9-row
board) read as a value without `.slice`. -/
def getRow (b : List JSRow) (r : Nat) : JSRow := b.getD r JSRow.other

/-- `board[r][c]`.  Reads on a non-array row or out of range give a value
that is `===`-distinct from every finite number, as in JavaScript. -/
def getCell (b : List JSRow) (r c : Nat) : JSCell :=
  match getRow b r with
  | JSRow.arr cells => cells.getD c JSCell.obj
  | _ => JSCell.obj

/-- `board[r][c] = v`.  The code only ever assigns into rows that have been
checked to be arrays; on other rows the model leaves the board unchanged. -/
def setCell (b : List JSRow) (r c : Nat) (v : JSCell) : List JSRow :=
  match getRow b r with
  | JSRow.arr cells => b.set r (JSRow.arr (cells.set c v))
  | _ => b

/-- `isValid(board, row, col, value)` from App.jsx lines 100-116: true iff
no cell in row `row`, column `col`, or the 3×3 box of `(row, col)` holds
`value`.  The callers only ever pass finite numbers as `value`. -/
def isValid (board : List JSRow) (row col : Nat) (value : ℚ) : Bool :=
  ((List.range 9).all fun i =>
      !(decide (getCell board row i = JSCell.num value)) &&
      !(decide (getCell board i col = JSCell.num value))) &&
  ((List.range 3).all fun i =>
    (List.range 3).all fun j =>
      !(decide (getCell board (row / 3 * 3 + i) (col / 3 * 3 + j) = JSCell.num value)))

/-- The candidate digits `1` through `9`, tried in this order by
`solveBoard`'s inner `for (let value = 1; value <= 9; ...)` loop. -/
def candidates : List ℚ := [1, 2, 3, 4, 5, 6, 7, 8, 9]

/-- The 81 board positions in row-major order, matching the nested
`for (row) for (col)` scan of `solveBoard`. -/
def allCells : List (Nat × Nat) := (List.range 81).map fun i => (i / 9, i % 9)

/-- The scan of `solveBoard`'s nested loops for the first cell holding `0`;
`none` means the board is full and `solveBoard` returns `true`. -/
def findZero (b : List JSRow) : List (Nat × Nat) → Option (Nat × Nat)
  | [] => none
  | rc :: rest =>
    if getCell b rc.1 rc.2 = JSCell.num 0 then some rc else findZero b rest

/-- First empty cell of the board in row-major order. -/
def firstZero (b : List JSRow) : Option (Nat × Nat) := findZero b allCells

/-- Number of empty (`=== 0`) cells among the 81 positions.  Used only as
the termination fuel for the recursion of `solveBoard`; each recursive call
of the JavaScript code happens after one empty cell is filled. -/
def countZeros (b : List JSRow) : Nat :=
  (allCells.filter fun rc => decide (getCell b rc.1 rc.2 = JSCell.num 0)).length

/-- The `for (let value = 1; value <= 9; ...)` loop body of `solveBoard`
at empty cell `(r, c)`: try each candidate in order; on a passing
`isValid`, place it and recurse (`f` is the recursive call); on a failed
recursion undo the placement (`board[row][col] = 0`) and continue.  The
board is threaded explicitly to model the in-place mutation. -/
def tryValues (f : List JSRow → Bool × List JSRow) (r c : Nat) :
    List ℚ → List JSRow → Bool × List JSRow
  | [], b => (false, b)
  | v :: vs, b =>
    if isValid b r c v then
      match f (setCell b r c (JSCell.num v)) with
      | (true, b2) => (true, b2)
      | (false, b2) => tryValues f r c vs (setCell b2 r c (JSCell.num 0))
    else tryValues f r c vs b

/-- `solveBoard` (App.jsx lines 118-135) with explicit fuel.  The fuel is
a bound on the recursion depth: every recursive call of the JavaScript
function happens on a board with one fewer empty cell, so
`countZeros b + 1` fuel always suffices (`solveBoardF_false_eq` and the
soundness lemmas below are all proved under `countZeros b < fuel`, and the
fuel-exhausted branch is never reached from `solveBoard`). -/
def solveBoardF : Nat → List JSRow → Bool × List JSRow
  | 0, b => (false, b)
  | n + 1, b =>
    match firstZero b with
    | none => (true, b)
    | some rc => tryValues (solveBoardF n) rc.1 rc.2 candidates b

/-- `solveBoard(board)`: returns whether a solution was found, together
with the final state of the (mutated-in-place) board. -/
def solveBoard (b : List JSRow) : Bool × List JSRow :=
  solveBoardF (countZeros b + 1) b

/-- Error message for a wrong outer row count (App.jsx line 139). -/
def nineRowsMsg : String := "Puzzle must have 9 rows."

/-- Error message for a malformed row, 1-indexed (App.jsx line 146). -/
def rowMsg (r : Nat) : String := "Row " ++ toString (r + 1) ++ " must have 9 values."

/-- Error message for an out-of-range cell value (App.jsx line 152). -/
def rangeMsg : String := "Values must be numbers 0-9."

/-- Error message for conflicting pre-filled cells (App.jsx line 157). -/
def conflictMsg : String := "Puzzle has conflicting values."

/-- Error message for an unsolvable puzzle (App.jsx line 165). -/
def unsolvableMsg : String := "No solution found."

/-- The body of the validation loop for one cell (App.jsx lines 150-160):
the range check `!Number.isFinite(value) || value < 0 || value > 9`, then,
for non-zero values, the clear / `isValid` / restore conflict check.  The
(possibly mutated and restored) board is returned. -/
def checkCell (b : List JSRow) (r c : Nat) : Except String (List JSRow) :=
  match getCell b r c with
  | JSCell.num q =>
    if q < 0 ∨ q > 9 then Except.error rangeMsg
    else if q = 0 then Except.ok b
    else
      if isValid (setCell b r c (JSCell.num 0)) r c q then
        Except.ok (setCell (setCell b r c (JSCell.num 0)) r c (JSCell.num q))
      else Except.error conflictMsg
  | _ => Except.error rangeMsg

/-- The inner `for (col)` validation loop over the listed column indices. -/
def checkCols : List JSRow → Nat → List Nat → Except String (List JSRow)
  | b, _, [] => Except.ok b
  | b, r, c :: cs =>
    match checkCell b r c with
    | Except.ok b2 => checkCols b2 r cs
    | Except.error e => Except.error e

/-- One iteration of the outer `for (row)` validation loop (App.jsx lines
144-162): the `!Array.isArray(board[row]) || board[row].length !== 9` shape
check, then the per-cell checks of that row. -/
def checkRow (b : List JSRow) (r : Nat) : Except String (List JSRow) :=
  match getRow b r with
  | JSRow.arr cells =>
    if cells.length = 9 then checkCols b r (List.range 9)
    else Except.error (rowMsg r)
  | _ => Except.error (rowMsg r)

/-- The outer `for (row)` validation loop over the listed row indices. -/
def checkRows : List JSRow → List Nat → Except String (List JSRow)
  | b, [] => Except.ok b
  | b, r :: rs =>
    match checkRow b r with
    | Except.ok b2 => checkRows b2 rs
    | Except.error e => Except.error e

/-- `row.slice()`: defined (and a value-identical copy) on arrays and
strings, throwing (`none`) on every other value. -/
def sliceRow : JSRow → Option JSRow
  | JSRow.arr cells => some (JSRow.arr cells)
  | JSRow.str s => some (JSRow.str s)
  | JSRow.other => none

/-- `rows.map((row) => row.slice())`: `none` when some row throws. -/
def sliceAll : List JSRow → Option (List JSRow)
  | [] => some []
  | r :: rs =>
    match sliceRow r, sliceAll rs with
    | some r2, some rs2 => some (r2 :: rs2)
    | _, _ => none

/-- Result of one `solveSudoku` call: a solution board, an error message
(the JavaScript `{ solution, error }` record), or an escaped exception. -/
inductive Outcome : Type where
  | ok (board : List JSRow)
  | err (msg : String)
  | thrown
  deriving DecidableEq

/-- `solveSudoku(rows)` (App.jsx lines 137-169): the outer 9-row check, the
`rows.map((row) => row.slice())` working copy (which throws on rows without
`.slice`), the validation loops, and the backtracking search. -/
def solveSudoku (rows : JSInput) : Outcome :=
  match rows with
  | JSInput.arr rs =>
    if rs.length = 9 then
      match sliceAll rs with
      | none => Outcome.thrown
      | some board =>
        match checkRows board (List.range 9) with
        | Except.error e => Outcome.err e
        | Except.ok board2 =>
          match solveBoard board2 with
          | (true, solved) => Outcome.ok solved
          | (false, _) => Outcome.err unsolvableMsg
    else Outcome.err nineRowsMsg
  | JSInput.notArray => Outcome.err nineRowsMsg

/-! ### Specification-side predicates -/

/-- Two positions see each other: same row, same column, or same 3×3 box. -/
def SameUnit (r1 c1 r2 c2 : Nat) : Prop :=
  r1 = r2 ∨ c1 = c2 ∨ (r1 / 3 = r2 / 3 ∧ c1 / 3 = c2 / 3)

instance (r1 c1 r2 c2 : Nat) : Decidable (SameUnit r1 c1 r2 c2) :=
  inferInstanceAs (Decidable (r1 = r2 ∨ c1 = c2 ∨ (r1 / 3 = r2 / 3 ∧ c1 / 3 = c2 / 3)))

/-- The length of a row value, when it is an array. -/
def rowLen : JSRow → Option Nat
  | JSRow.arr cells => some cells.length
  | _ => none

/-- The board is an array of 9 arrays of 9 cells. -/
def Shape9 (b : List JSRow) : Prop :=
  b.length = 9 ∧ ∀ r, r < 9 → rowLen (getRow b r) = some 9

instance (b : List JSRow) : Decidable (Shape9 b) :=
  inferInstanceAs (Decidable (b.length = 9 ∧ ∀ r, r < 9 → rowLen (getRow b r) = some 9))

/-- The cell passes the range check of the validator: a finite number in
`[0, 9]`. -/
def inRangeCell : JSCell → Bool
  | JSCell.num q => decide (0 ≤ q ∧ q ≤ 9)
  | _ => false

/-- No two distinct mutually visible cells hold the same non-zero value. -/
def NoConflicts (b : List JSRow) : Prop :=
  ∀ r1, r1 < 9 → ∀ c1, c1 < 9 → ∀ r2, r2 < 9 → ∀ c2, c2 < 9 →
    ¬(r1 = r2 ∧ c1 = c2) → SameUnit r1 c1 r2 c2 →
    getCell b r1 c1 ≠ JSCell.num 0 → getCell b r1 c1 ≠ getCell b r2 c2

/-- Executable check deciding `NoConflicts`. -/
def noConflictsB (b : List JSRow) : Bool :=
  (List.range 9).all fun r1 => (List.range 9).all fun c1 =>
    (List.range 9).all fun r2 => (List.range 9).all fun c2 =>
      (decide (r1 = r2) && decide (c1 = c2)) ||
      !(decide (SameUnit r1 c1 r2 c2)) ||
      decide (getCell b r1 c1 = JSCell.num 0) ||
      !(decide (getCell b r1 c1 = getCell b r2 c2))

theorem noConflictsB_iff (b : List JSRow) : noConflictsB b = true ↔ NoConflicts b := by
  unfold noConflictsB NoConflicts
  simp only [List.all_eq_true, List.mem_range, Bool.or_eq_true, Bool.and_eq_true,
    decide_eq_true_eq, Bool.not_eq_true', decide_eq_false_iff_not]
  constructor
  · intro h r1 h1 c1 h2 r2 h3 c2 h4 hne hsu hz
    have h5 := h r1 h1 c1 h2 r2 h3 c2 h4
    tauto
  · intro h r1 h1 c1 h2 r2 h3 c2 h4
    have h5 := h r1 h1 c1 h2 r2 h3 c2 h4
    tauto

instance (b : List JSRow) : Decidable (NoConflicts b) :=
  decidable_of_iff (noConflictsB b = true) (noConflictsB_iff b)

/-- Two distinct mutually visible cells hold the same non-zero value. -/
def HasConflict (b : List JSRow) : Prop :=
  ∃ r1, r1 < 9 ∧ ∃ c1, c1 < 9 ∧ ∃ r2, r2 < 9 ∧ ∃ c2, c2 < 9 ∧
    ¬(r1 = r2 ∧ c1 = c2) ∧ SameUnit r1 c1 r2 c2 ∧
    getCell b r1 c1 ≠ JSCell.num 0 ∧ getCell b r1 c1 = getCell b r2 c2

theorem hasConflict_iff_not (b : List JSRow) : HasConflict b ↔ ¬NoConflicts b := by
  unfold HasConflict NoConflicts
  constructor
  · rintro ⟨r1, h1, c1, h2, r2, h3, c2, h4, hne, hsu, hz, he⟩ h
    exact h r1 h1 c1 h2 r2 h3 c2 h4 hne hsu hz he
  · intro h
    push_neg at h
    obtain ⟨r1, h1, c1, h2, r2, h3, c2, h4, hne, hsu, hz, he⟩ := h
    refine ⟨r1, h1, c1, h2, r2, h3, c2, h4, ?_, hsu, hz, he⟩
    tauto

instance (b : List JSRow) : Decidable (HasConflict b) :=
  decidable_of_iff (¬NoConflicts b) (hasConflict_iff_not b).symm

/-- A 9×9 grid whose cells are all integers `0`-`9` (as JS numbers). -/
def DigitGrid (b : List JSRow) : Prop :=
  Shape9 b ∧ ∀ r, r < 9 → ∀ c, c < 9 → ∃ d : Nat, d < 10 ∧ getCell b r c = JSCell.num d

instance (b : List JSRow) : Decidable (DigitGrid b) :=
  inferInstanceAs (Decidable (Shape9 b ∧ ∀ r, r < 9 → ∀ c, c < 9 →
    ∃ d : Nat, d < 10 ∧ getCell b r c = JSCell.num d))

/-- Every cell holds a digit `1`-`9` (no zeros, no other values). -/
def AllDigits (b : List JSRow) : Prop :=
  ∀ r, r < 9 → ∀ c, c < 9 → ∃ d : Nat, d < 10 ∧ 1 ≤ d ∧ getCell b r c = JSCell.num d

instance (b : List JSRow) : Decidable (AllDigits b) :=
  inferInstanceAs (Decidable (∀ r, r < 9 → ∀ c, c < 9 →
    ∃ d : Nat, d < 10 ∧ 1 ≤ d ∧ getCell b r c = JSCell.num d))

/-- `sol` is a completed solution of the puzzle `b`: a 9×9 grid of digits
`1`-`9`, with no two equal values sharing a row, column or box, agreeing
with `b` on every cell of `b` that is not `0`. -/
def Completes (b sol : List JSRow) : Prop :=
  Shape9 sol ∧ AllDigits sol ∧ NoConflicts sol ∧
  ∀ r, r < 9 → ∀ c, c < 9 → getCell b r c ≠ JSCell.num 0 →
    getCell sol r c = getCell b r c

instance (b sol : List JSRow) : Decidable (Completes b sol) :=
  inferInstanceAs (Decidable (Shape9 sol ∧ AllDigits sol ∧ NoConflicts sol ∧
    ∀ r, r < 9 → ∀ c, c < 9 → getCell b r c ≠ JSCell.num 0 →
      getCell sol r c = getCell b r c))

/-- The numeric value of a cell (`0` for non-numbers; only applied to
numeric cells in practice). -/
def cellQ : JSCell → ℚ
  | JSCell.num q => q
  | _ => 0

/-- The 81 cell values of a board, read in row-major order.  Solutions are
compared lexicographically on this list. -/
def flatten (b : List JSRow) : List ℚ :=
  allCells.map fun rc => cellQ (getCell b rc.1 rc.2)

/-! ### Concrete boards used as test inputs -/

/-- A row of nine `0` cells. -/
def zeroRow : JSRow := JSRow.arr (List.replicate 9 (JSCell.num 0))

/-- A row of the given numbers. -/
def numRow (l : List Nat) : JSRow := JSRow.arr (l.map fun n => JSCell.num n)

/-- A valid completed Sudoku grid. -/
def fullGrid : List JSRow :=
  [numRow [1, 2, 3, 4, 5, 6, 7, 8, 9],
   numRow [4, 5, 6, 7, 8, 9, 1, 2, 3],
   numRow [7, 8, 9, 1, 2, 3, 4, 5, 6],
   numRow [2, 3, 1, 5, 6, 4, 8, 9, 7],
   numRow [5, 6, 4, 8, 9, 7, 2, 3, 1],
   numRow [8, 9, 7, 2, 3, 1, 5, 6, 4],
   numRow [3, 1, 2, 6, 4, 5, 9, 7, 8],
   numRow [6, 4, 5, 9, 7, 8, 3, 1, 2],
   numRow [9, 7, 8, 3, 1, 2, 6, 4, 5]]

/-- `fullGrid` with the non-integer value `2.5` (the rational `5/2`, an
exactly representable JavaScript double) in its first cell. -/
def halfGrid : List JSRow :=
  JSRow.arr (JSCell.num (mkRat 5 2) ::
      ([2, 3, 4, 5, 6, 7, 8, 9].map fun n => JSCell.num (n : Nat)))
    :: fullGrid.drop 1

/-- A grid whose first row starts with two `5`s (a row conflict). -/
def conflictGrid : List JSRow :=
  numRow [5, 5, 0, 0, 0, 0, 0, 0, 0] :: List.replicate 8 zeroRow

/-- A grid with the out-of-range value `10` in its first cell. -/
def tenGrid : List JSRow :=
  numRow [10, 0, 0, 0, 0, 0, 0, 0, 0] :: List.replicate 8 zeroRow

/-- Row 1 holds an out-of-range `10`; row 3 has only 8 entries. -/
def tenThenShortGrid : List JSRow :=
  numRow [10, 0, 0, 0, 0, 0, 0, 0, 0] :: zeroRow ::
    JSRow.arr (List.replicate 8 (JSCell.num 0)) :: List.replicate 6 zeroRow

/-- Row 1 holds a conflict; row 2 holds an out-of-range `10`. -/
def conflictThenTenGrid : List JSRow :=
  numRow [5, 5, 0, 0, 0, 0, 0, 0, 0] :: numRow [10, 0, 0, 0, 0, 0, 0, 0, 0] ::
    List.replicate 7 zeroRow

/-- Nine rows none of which is an array or a string: in JavaScript this is
for example `[1, 1, 1, 1, 1, 1, 1, 1, 1]`, an array of nine numbers, whose
rows all lack a callable `.slice`. -/
def numbersAsRows : JSInput := JSInput.arr (List.replicate 9 JSRow.other)

/-! ### Basic list and board lemmas -/

theorem list_getD_set_self {α : Type} (l : List α) (i : Nat) (d : α) :
    l.set i (l.getD i d) = l := by
  induction l generalizing i with
  | nil => rfl
  | cons a t ih =>
    cases i with
    | zero => simp [List.getD]
    | succ j => simp [List.getD] at ih ⊢; exact ih j

theorem list_getD_set_eq {α : Type} (l : List α) (i : Nat) (v d : α) (h : i < l.length) :
    (l.set i v).getD i d = v := by
  induction l generalizing i with
  | nil => simp at h
  | cons a t ih =>
    cases i with
    | zero => simp [List.getD]
    | succ j =>
      simp only [List.set_cons_succ, List.getD_cons_succ]
      exact ih j (by simpa using h)

theorem list_getD_set_ne {α : Type} (l : List α) (i j : Nat) (v d : α) (h : i ≠ j) :
    (l.set i v).getD j d = l.getD j d := by
  induction l generalizing i j with
  | nil => rfl
  | cons a t ih =>
    cases i with
    | zero =>
      cases j with
      | zero => exact absurd rfl h
      | succ j2 => simp [List.getD]
    | succ i2 =>
      cases j with
      | zero => simp [List.getD]
      | succ j2 =>
        simp only [List.set_cons_succ, List.getD_cons_succ]
        exact ih i2 j2 (fun he => h (by rw [he]))

theorem getRow_arr_lt {b : List JSRow} {r : Nat} {cells : List JSCell}
    (h : getRow b r = JSRow.arr cells) : r < b.length := by
  by_contra hge
  unfold getRow at h
  rw [List.getD_eq_default _ _ (by omega)] at h
  exact JSRow.noConfusion h

theorem getRow_set_self {b : List JSRow} {r : Nat} (row : JSRow) (h : r < b.length) :
    getRow (b.set r row) r = row := by
  unfold getRow
  exact list_getD_set_eq _ _ _ _ (by simpa using h)

theorem getRow_set_ne {b : List JSRow} {r r2 : Nat} (row : JSRow) (h : r ≠ r2) :
    getRow (b.set r row) r2 = getRow b r2 := by
  unfold getRow
  exact list_getD_set_ne _ _ _ _ _ h

theorem getCell_of_row {b : List JSRow} {r : Nat} {cells : List JSCell}
    (h : getRow b r = JSRow.arr cells) (c : Nat) :
    getCell b r c = cells.getD c JSCell.obj := by
  unfold getCell
  rw [h]

theorem getCell_of_row_notArr {b : List JSRow} {r : Nat}
    (h : rowLen (getRow b r) = none) (c : Nat) :
    getCell b r c = JSCell.obj := by
  unfold getCell
  cases hr : getRow b r with
  | arr cells => rw [hr] at h; exact Option.noConfusion h
  | str s => rfl
  | other => rfl

theorem setCell_of_row {b : List JSRow} {r : Nat} {cells : List JSCell}
    (h : getRow b r = JSRow.arr cells) (c : Nat) (v : JSCell) :
    setCell b r c v = b.set r (JSRow.arr (cells.set c v)) := by
  unfold setCell
  rw [h]

theorem setCell_of_row_notArr {b : List JSRow} {r : Nat}
    (h : rowLen (getRow b r) = none) (c : Nat) (v : JSCell) :
    setCell b r c v = b := by
  unfold setCell
  cases hr : getRow b r with
  | arr cells => rw [hr] at h; exact Option.noConfusion h
  | str s => rfl
  | other => rfl

theorem getCell_num_arr {b : List JSRow} {r c : Nat} {v : JSCell}
    (hv : v ≠ JSCell.obj) (h : getCell b r c = v) :
    ∃ cells, getRow b r = JSRow.arr cells ∧ c < cells.length ∧
      cells.getD c JSCell.obj = v := by
  cases harr : getRow b r with
  | arr cells =>
    rw [getCell_of_row harr] at h
    refine ⟨cells, rfl, ?_, h⟩
    by_contra hge
    rw [List.getD_eq_default _ _ (by omega)] at h
    exact hv h.symm
  | str s =>
    rw [getCell_of_row_notArr (by rw [harr]; rfl)] at h
    exact absurd h.symm hv
  | other =>
    rw [getCell_of_row_notArr (by rw [harr]; rfl)] at h
    exact absurd h.symm hv

theorem getCell_setCell_ne (b : List JSRow) (r c r2 c2 : Nat) (v : JSCell)
    (h : ¬(r2 = r ∧ c2 = c)) :
    getCell (setCell b r c v) r2 c2 = getCell b r2 c2 := by
  cases harr : getRow b r with
  | arr cells =>
    rw [setCell_of_row harr]
    by_cases hr : r2 = r
    · subst hr
      have hc : c2 ≠ c := fun hc => h ⟨rfl, hc⟩
      have hlt : r2 < b.length := getRow_arr_lt harr
      rw [getCell_of_row (getRow_set_self _ hlt), getCell_of_row harr]
      exact list_getD_set_ne _ _ _ _ _ (fun he => hc he.symm)
    · unfold getCell
      rw [getRow_set_ne _ (fun he => hr he.symm)]
  | str s =>
    have hno : rowLen (getRow b r) = none := by rw [harr]; rfl
    rw [setCell_of_row_notArr hno]
  | other =>
    have hno : rowLen (getRow b r) = none := by rw [harr]; rfl
    rw [setCell_of_row_notArr hno]

theorem getCell_setCell_eq (b : List JSRow) (r c : Nat) (v : JSCell) {w : JSCell}
    (hw : w ≠ JSCell.obj) (h : getCell b r c = w) :
    getCell (setCell b r c v) r c = v := by
  obtain ⟨cells, harr, hclt, _⟩ := getCell_num_arr hw h
  have hlt : r < b.length := getRow_arr_lt harr
  rw [setCell_of_row harr, getCell_of_row (getRow_set_self _ hlt)]
  exact list_getD_set_eq _ _ _ _ (by simpa using hclt)

theorem setCell_setCell (b : List JSRow) (r c : Nat) (v w : JSCell) :
    setCell (setCell b r c v) r c w = setCell b r c w := by
  cases harr : getRow b r with
  | arr cells =>
    have hlt : r < b.length := getRow_arr_lt harr
    rw [setCell_of_row harr,
      setCell_of_row (getRow_set_self (JSRow.arr (cells.set c v)) hlt),
      setCell_of_row harr, List.set_set, List.set_set]
  | str s =>
    have hno : rowLen (getRow b r) = none := by rw [harr]; rfl
    simp only [setCell_of_row_notArr hno]
  | other =>
    have hno : rowLen (getRow b r) = none := by rw [harr]; rfl
    simp only [setCell_of_row_notArr hno]

theorem setCell_restore (b : List JSRow) (r c : Nat) :
    setCell b r c (getCell b r c) = b := by
  cases harr : getRow b r with
  | arr cells =>
    rw [setCell_of_row harr, getCell_of_row harr, list_getD_set_self]
    have h2 : JSRow.arr cells = b.getD r JSRow.other := harr.symm
    rw [h2, list_getD_set_self]
  | str s =>
    have hno : rowLen (getRow b r) = none := by rw [harr]; rfl
    rw [setCell_of_row_notArr hno]
  | other =>
    have hno : rowLen (getRow b r) = none := by rw [harr]; rfl
    rw [setCell_of_row_notArr hno]

theorem length_setCell (b : List JSRow) (r c : Nat) (v : JSCell) :
    (setCell b r c v).length = b.length := by
  cases harr : getRow b r with
  | arr cells => rw [setCell_of_row harr]; exact List.length_set _ _ _
  | str s =>
    have hno : rowLen (getRow b r) = none := by rw [harr]; rfl
    rw [setCell_of_row_notArr hno]
  | other =>
    have hno : rowLen (getRow b r) = none := by rw [harr]; rfl
    rw [setCell_of_row_notArr hno]

theorem rowLen_setCell (b : List JSRow) (r c : Nat) (v : JSCell) (r2 : Nat) :
    rowLen (getRow (setCell b r c v) r2) = rowLen (getRow b r2) := by
  cases harr : getRow b r with
  | arr cells =>
    rw [setCell_of_row harr]
    by_cases hr : r2 = r
    · subst hr
      have hlt : r2 < b.length := getRow_arr_lt harr
      rw [getRow_set_self _ hlt, harr]
      simp [rowLen]
    · rw [getRow_set_ne _ (fun he => hr he.symm)]
  | str s =>
    have hno : rowLen (getRow b r) = none := by rw [harr]; rfl
    rw [setCell_of_row_notArr hno]
  | other =>
    have hno : rowLen (getRow b r) = none := by rw [harr]; rfl
    rw [setCell_of_row_notArr hno]

theorem shape9_setCell {b : List JSRow} (r c : Nat) (v : JSCell) (h : Shape9 b) :
    Shape9 (setCell b r c v) := by
  obtain ⟨hlen, hrows⟩ := h
  exact ⟨by rw [length_setCell]; exact hlen,
    fun r2 hr2 => by rw [rowLen_setCell]; exact hrows r2 hr2⟩

/-! ### Facts about the row-major cell enumeration -/

theorem allCells_bound : ∀ p ∈ allCells, p.1 < 9 ∧ p.2 < 9 := by decide

theorem allCells_mem : ∀ r, r < 9 → ∀ c, c < 9 → (r, c) ∈ allCells := by decide

theorem allCells_nodup : allCells.Nodup := by decide

theorem allCells_length : allCells.length = 81 := rfl

theorem allCells_getD : ∀ i, i < 81 → allCells.getD i (0, 0) = (i / 9, i % 9) := by decide

theorem list_getD_append_mid {α : Type} (l1 l2 : List α) (x : α) (d : α) :
    (l1 ++ x :: l2).getD l1.length d = x := by
  induction l1 with
  | nil => rfl
  | cons a t ih => simpa using ih

theorem list_getD_append_left {α : Type} (l1 l2 : List α) (j : Nat) (d : α)
    (h : j < l1.length) : (l1 ++ l2).getD j d = l1.getD j d := by
  induction l1 generalizing j with
  | nil => simp at h
  | cons a t ih =>
    cases j with
    | zero => rfl
    | succ j2 => simpa using ih j2 (by simpa using h)

theorem list_getD_mem {α : Type} (l : List α) (j : Nat) (d : α) (h : j < l.length) :
    l.getD j d ∈ l := by
  induction l generalizing j with
  | nil => simp at h
  | cons a t ih =>
    cases j with
    | zero => simp [List.getD]
    | succ j2 =>
      simp only [List.getD_cons_succ]
      exact List.mem_cons_of_mem a (ih j2 (by simpa using h))

/-! ### Facts about `findZero` and `countZeros` -/

theorem findZero_none_iff (b : List JSRow) (l : List (Nat × Nat)) :
    findZero b l = none ↔ ∀ rc ∈ l, getCell b rc.1 rc.2 ≠ JSCell.num 0 := by
  induction l with
  | nil => simp [findZero]
  | cons rc rest ih =>
    unfold findZero
    by_cases h : getCell b rc.1 rc.2 = JSCell.num 0
    · simp [h]
    · simpa [h] using ih

theorem findZero_some (b : List JSRow) (l : List (Nat × Nat)) (rc : Nat × Nat)
    (h : findZero b l = some rc) :
    ∃ l1 l2, l = l1 ++ rc :: l2 ∧ (∀ x ∈ l1, getCell b x.1 x.2 ≠ JSCell.num 0) ∧
      getCell b rc.1 rc.2 = JSCell.num 0 := by
  induction l with
  | nil => exact Option.noConfusion h
  | cons p rest ih =>
    unfold findZero at h
    by_cases hp : getCell b p.1 p.2 = JSCell.num 0
    · rw [if_pos hp] at h
      obtain rfl : p = rc := Option.some.inj h
      exact ⟨[], rest, rfl, by simp, hp⟩
    · rw [if_neg hp] at h
      obtain ⟨l1, l2, heq, hall, hz⟩ := ih h
      refine ⟨p :: l1, l2, by rw [heq]; rfl, ?_, hz⟩
      intro x hx
      rcases List.mem_cons.mp hx with rfl | hx2
      · exact hp
      · exact hall x hx2

theorem firstZero_none_iff (b : List JSRow) :
    firstZero b = none ↔ ∀ r, r < 9 → ∀ c, c < 9 → getCell b r c ≠ JSCell.num 0 := by
  unfold firstZero
  rw [findZero_none_iff]
  constructor
  · intro h r hr c hc
    exact h (r, c) (allCells_mem r hr c hc)
  · intro h rc hrc
    obtain ⟨h1, h2⟩ := allCells_bound rc hrc
    exact h rc.1 h1 rc.2 h2

theorem firstZero_some_spec (b : List JSRow) (rc : Nat × Nat)
    (h : firstZero b = some rc) :
    rc.1 < 9 ∧ rc.2 < 9 ∧ getCell b rc.1 rc.2 = JSCell.num 0 ∧
      ∀ r2 c2, r2 < 9 → c2 < 9 → r2 * 9 + c2 < rc.1 * 9 + rc.2 →
        getCell b r2 c2 ≠ JSCell.num 0 := by
  obtain ⟨l1, l2, heq, hall, hz⟩ := findZero_some b allCells rc h
  have hk : l1.length + (1 + l2.length) = 81 := by
    have := congrArg List.length heq
    simp [allCells_length] at this
    omega
  have hklt : l1.length < 81 := by omega
  have hrc : rc = (l1.length / 9, l1.length % 9) := by
    have h1 : allCells.getD l1.length (0, 0) = rc := by
      rw [heq]; exact list_getD_append_mid l1 l2 rc (0, 0)
    rw [allCells_getD l1.length hklt] at h1
    exact h1.symm
  have hidx : rc.1 * 9 + rc.2 = l1.length := by
    rw [hrc]; simp; omega
  refine ⟨by rw [hrc]; simp; omega, by rw [hrc]; simp; omega, hz, ?_⟩
  intro r2 c2 h2 h3 hlt
  have hj : r2 * 9 + c2 < l1.length := by omega
  have hget : allCells.getD (r2 * 9 + c2) (0, 0) = (r2, c2) := by
    rw [allCells_getD (r2 * 9 + c2) (by omega)]
    have e1 : (r2 * 9 + c2) / 9 = r2 := by omega
    have e2 : (r2 * 9 + c2) % 9 = c2 := by omega
    rw [e1, e2]
  have hmem : (r2, c2) ∈ l1 := by
    have : allCells.getD (r2 * 9 + c2) (0, 0) = l1.getD (r2 * 9 + c2) (0, 0) := by
      rw [heq]; exact list_getD_append_left l1 (rc :: l2) _ (0, 0) hj
    rw [hget] at this
    rw [this]
    exact list_getD_mem l1 _ (0, 0) hj
  exact hall (r2, c2) hmem

theorem list_filter_length_update {α : Type} (p p2 : α → Bool) (a : α) :
    ∀ l : List α, l.Nodup → a ∈ l → p a = true → p2 a = false →
      (∀ x ∈ l, x ≠ a → p x = p2 x) →
      (l.filter p).length = (l.filter p2).length + 1 := by
  intro l
  induction l with
  | nil => intro _ ha; simp at ha
  | cons x t ih =>
    intro hnd hmem hpa hp2a hrest
    by_cases hax : x = a
    · subst hax
      have hnotin : x ∉ t := (List.nodup_cons.mp hnd).1
      have hsame : t.filter p = t.filter p2 := by
        apply List.filter_congr
        intro y hy
        exact hrest y (List.mem_cons_of_mem x hy) (fun he => hnotin (he ▸ hy))
      simp only [List.filter_cons, hpa, hp2a]
      simp [hsame]
    · have hmem2 : a ∈ t := by
        rcases List.mem_cons.mp hmem with heq | h2
        · exact absurd heq.symm hax
        · exact h2
      have hx : p x = p2 x :=
        hrest x (List.mem_cons_self x t) hax
      have ht := ih (List.nodup_cons.mp hnd).2 hmem2 hpa hp2a
        (fun y hy => hrest y (List.mem_cons_of_mem x hy))
      simp only [List.filter_cons, ← hx]
      cases hpx : p x with
      | true => simp [ht]
      | false => simp [ht]

theorem countZeros_setCell {b : List JSRow} {r c : Nat} {v : JSCell}
    (h0 : getCell b r c = JSCell.num 0) (hr : r < 9) (hc : c < 9)
    (hv : v ≠ JSCell.num 0) :
    countZeros b = countZeros (setCell b r c v) + 1 := by
  unfold countZeros
  apply list_filter_length_update _ _ (r, c) allCells allCells_nodup
    (allCells_mem r hr c hc)
  · simpa using h0
  · simp only [decide_eq_false_iff_not]
    rw [getCell_setCell_eq b r c v (by simp) h0]
    exact hv
  · intro x hx hxne
    have : getCell (setCell b r c v) x.1 x.2 = getCell b x.1 x.2 := by
      apply getCell_setCell_ne
      intro ⟨he1, he2⟩
      exact hxne (by rw [← he1, ← he2])
    rw [this]

/-! ### Characterisation of `isValid` -/

theorem isValid_iff_cells (b : List JSRow) (r c : Nat) (q : ℚ) :
    isValid b r c q = true ↔
      (∀ i, i < 9 → getCell b r i ≠ JSCell.num q) ∧
      (∀ i, i < 9 → getCell b i c ≠ JSCell.num q) ∧
      (∀ i, i < 3 → ∀ j, j < 3 →
        getCell b (r / 3 * 3 + i) (c / 3 * 3 + j) ≠ JSCell.num q) := by
  unfold isValid
  simp only [Bool.and_eq_true, List.all_eq_true, List.mem_range,
    Bool.not_eq_true', decide_eq_false_iff_not]
  constructor
  · intro ⟨h1, h2⟩
    exact ⟨fun i hi => (h1 i hi).1, fun i hi => (h1 i hi).2, h2⟩
  · intro ⟨h1, h2, h3⟩
    exact ⟨fun i hi => ⟨h1 i hi, h2 i hi⟩, h3⟩

theorem sameUnit_symm {r1 c1 r2 c2 : Nat} (h : SameUnit r1 c1 r2 c2) :
    SameUnit r2 c2 r1 c1 := by
  unfold SameUnit at h ⊢
  tauto

theorem isValid_iff_unit (b : List JSRow) (r c : Nat) (q : ℚ)
    (hr : r < 9) (hc : c < 9) :
    isValid b r c q = true ↔
      ∀ r2, r2 < 9 → ∀ c2, c2 < 9 → SameUnit r c r2 c2 →
        getCell b r2 c2 ≠ JSCell.num q := by
  rw [isValid_iff_cells]
  constructor
  · intro ⟨h1, h2, h3⟩ r2 hr2 c2 hc2 hsu
    rcases hsu with he | he | ⟨hbr, hbc⟩
    · exact he ▸ h1 c2 hc2
    · exact he ▸ h2 r2 hr2
    · have e1 : r2 = r / 3 * 3 + (r2 - r / 3 * 3) := by omega
      have e2 : c2 = c / 3 * 3 + (c2 - c / 3 * 3) := by omega
      rw [e1, e2]
      exact h3 _ (by omega) _ (by omega)
  · intro h
    refine ⟨fun i hi => h r hr i hi (Or.inl rfl),
      fun i hi => h i hi c hc (Or.inr (Or.inl rfl)),
      fun i hi j hj => h _ (by omega) _ (by omega) ?_⟩
    exact Or.inr (Or.inr ⟨by omega, by omega⟩)

/-! ### Facts about the candidate list -/

theorem candidates_nonzero : ∀ v ∈ candidates, v ≠ (0 : ℚ) := by decide

theorem candidates_digit : ∀ v ∈ candidates, ∃ d : Nat, 1 ≤ d ∧ d ≤ 9 ∧ (d : ℚ) = v := by
  intro v hv
  simp only [candidates, List.mem_cons, List.not_mem_nil, or_false] at hv
  rcases hv with rfl | rfl | rfl | rfl | rfl | rfl | rfl | rfl | rfl
  · exact ⟨1, by norm_num⟩
  · exact ⟨2, by norm_num⟩
  · exact ⟨3, by norm_num⟩
  · exact ⟨4, by norm_num⟩
  · exact ⟨5, by norm_num⟩
  · exact ⟨6, by norm_num⟩
  · exact ⟨7, by norm_num⟩
  · exact ⟨8, by norm_num⟩
  · exact ⟨9, by norm_num⟩

theorem digit_mem_candidates : ∀ d : Nat, 1 ≤ d → d ≤ 9 → (d : ℚ) ∈ candidates := by
  intro d h1 h2
  interval_cases d <;> simp [candidates]

theorem candidates_sorted : candidates.Sorted (· < ·) := by
  unfold candidates
  norm_num [List.sorted_cons]

theorem candidates_split_lt {pre rest : List ℚ} {v : ℚ}
    (hsplit : candidates = pre ++ v :: rest) :
    ∀ w ∈ candidates, w < v → w ∈ pre := by
  intro w hw hlt
  have hs : (pre ++ v :: rest).Sorted (· < ·) := hsplit ▸ candidates_sorted
  rw [hsplit] at hw
  rcases List.mem_append.mp hw with h | h
  · exact h
  · rcases List.mem_cons.mp h with rfl | h2
    · exact absurd hlt (lt_irrefl w)
    · have hpw : List.Pairwise (· < ·) (v :: rest) := (List.pairwise_append.mp hs).2.1
      have : v < w := (List.pairwise_cons.mp hpw).1 w h2
      exact absurd hlt (by exact not_lt_of_gt this)

/-! ### The search preserves the constraints -/

theorem noConflicts_setCell {b : List JSRow} {r c : Nat} {q : ℚ}
    (hb : NoConflicts b) (h0 : getCell b r c = JSCell.num 0)
    (hr : r < 9) (hc : c < 9) (hval : isValid b r c q = true) :
    NoConflicts (setCell b r c (JSCell.num q)) := by
  have hcell : getCell (setCell b r c (JSCell.num q)) r c = JSCell.num q :=
    getCell_setCell_eq b r c _ (by simp) h0
  have hunit := (isValid_iff_unit b r c q hr hc).mp hval
  intro r1 h1 c1 h2 r2 h3 c2 h4 hne hsu hz
  by_cases he1 : r1 = r ∧ c1 = c
  · obtain ⟨rfl, rfl⟩ := he1
    have he2 : ¬(r2 = r1 ∧ c2 = c1) := fun ⟨a1, a2⟩ => hne ⟨a1.symm, a2.symm⟩
    rw [hcell, getCell_setCell_ne b r1 c1 r2 c2 _ he2]
    intro heq
    exact hunit r2 h3 c2 h4 hsu heq.symm
  · rw [getCell_setCell_ne b r c r1 c1 _ he1] at hz ⊢
    by_cases he2 : r2 = r ∧ c2 = c
    · obtain ⟨rfl, rfl⟩ := he2
      rw [hcell]
      intro heq
      exact hunit r1 h1 c1 h2 (sameUnit_symm hsu) heq
    · rw [getCell_setCell_ne b r c r2 c2 _ he2]
      exact hb r1 h1 c1 h2 r2 h3 c2 h4 hne hsu hz

/-! ### Restoration: a failed search leaves the board as it found it -/

theorem solveBoardF_false_eq :
    ∀ n b b2, countZeros b < n → solveBoardF n b = (false, b2) → b2 = b := by
  intro n
  induction n with
  | zero => intro b b2 hlt; exact absurd hlt (Nat.not_lt_zero _)
  | succ n ih =>
    intro b b2 hlt hrun
    rw [solveBoardF] at hrun
    cases hfz : firstZero b with
    | none => rw [hfz] at hrun; simp at hrun
    | some rc =>
      rw [hfz] at hrun
      obtain ⟨hr, hc, h0, _⟩ := firstZero_some_spec b rc hfz
      have hle : countZeros b ≤ n := by omega
      clear hlt hfz
      -- inner induction over the candidate list, the board staying fixed
      have inner : ∀ (vs : List ℚ), (∀ v ∈ vs, v ≠ (0 : ℚ)) →
          ∀ b3, tryValues (solveBoardF n) rc.1 rc.2 vs b = (false, b3) → b3 = b := by
        intro vs
        induction vs with
        | nil =>
          intro _ b3 h
          unfold tryValues at h
          injection h with h1 h2
          exact h2.symm
        | cons v rest ihv =>
          intro hnz b3 h
          unfold tryValues at h
          by_cases hval : isValid b rc.1 rc.2 v = true
          · rw [if_pos hval] at h
            cases hres : solveBoardF n (setCell b rc.1 rc.2 (JSCell.num v)) with
            | mk ok b4 =>
              rw [hres] at h
              cases ok with
              | true => simp at h
              | false =>
                simp only at h
                have hvne : JSCell.num v ≠ JSCell.num 0 := by
                  intro he
                  exact hnz v (List.mem_cons_self v rest) (JSCell.num.inj he)
                have hcz := countZeros_setCell h0 hr hc hvne
                have hb4 : b4 = setCell b rc.1 rc.2 (JSCell.num v) :=
                  ih _ _ (by omega) hres
                rw [hb4, setCell_setCell] at h
                rw [show JSCell.num (0 : ℚ) = getCell b rc.1 rc.2 from h0.symm,
                  setCell_restore] at h
                exact ihv (fun w hw => hnz w (List.mem_cons_of_mem v hw)) b3 h
          · rw [if_neg hval] at h
            exact ihv (fun w hw => hnz w (List.mem_cons_of_mem v hw)) b3 h
      exact inner candidates candidates_nonzero b2 hrun

/-! ### The fuel never matters -/

/-- Any two sufficient fuels give the same run: the fuel of `solveBoardF`
is only a termination device and `solveBoard`'s choice `countZeros b + 1`
is as good as any larger one, so the embedding computes exactly what the
unbounded JavaScript recursion computes. -/
theorem solveBoardF_fuel_irrel :
    ∀ n m b, countZeros b < n → countZeros b < m →
      solveBoardF n b = solveBoardF m b := by
  intro n
  induction n with
  | zero => intro m b hlt; exact absurd hlt (Nat.not_lt_zero _)
  | succ n ih =>
    intro m b hltn hltm
    cases m with
    | zero => exact absurd hltm (Nat.not_lt_zero _)
    | succ m2 =>
      rw [solveBoardF]
      conv_rhs => rw [solveBoardF]
      cases hfz : firstZero b with
      | none => rfl
      | some rc =>
        obtain ⟨hr, hc, h0, _⟩ := firstZero_some_spec b rc hfz
        have inner : ∀ (vs : List ℚ), (∀ v ∈ vs, v ≠ (0 : ℚ)) →
            tryValues (solveBoardF n) rc.1 rc.2 vs b =
              tryValues (solveBoardF m2) rc.1 rc.2 vs b := by
          intro vs
          induction vs with
          | nil => intro _; rfl
          | cons v rest ihv =>
            intro hnz
            unfold tryValues
            by_cases hval : isValid b rc.1 rc.2 v = true
            · rw [if_pos hval, if_pos hval]
              have hvne : JSCell.num v ≠ JSCell.num 0 := by
                intro he
                exact hnz v (List.mem_cons_self v rest) (JSCell.num.inj he)
              have hcz := countZeros_setCell h0 hr hc hvne
              have hsame : solveBoardF n (setCell b rc.1 rc.2 (JSCell.num v)) =
                  solveBoardF m2 (setCell b rc.1 rc.2 (JSCell.num v)) :=
                ih m2 _ (by omega) (by omega)
              rw [← hsame]
              cases hres : solveBoardF n (setCell b rc.1 rc.2 (JSCell.num v)) with
              | mk ok b4 =>
                cases ok with
                | true => rfl
                | false =>
                  simp only
                  have hb4 : b4 = setCell b rc.1 rc.2 (JSCell.num v) :=
                    solveBoardF_false_eq n _ _ (by omega) hres
                  rw [hb4, setCell_setCell,
                    show JSCell.num (0 : ℚ) = getCell b rc.1 rc.2 from h0.symm,
                    setCell_restore]
                  exact ihv (fun y hy => hnz y (List.mem_cons_of_mem v hy))
            · rw [if_neg hval, if_neg hval]
              exact ihv (fun y hy => hnz y (List.mem_cons_of_mem v hy))
        exact inner candidates candidates_nonzero

/-! ### Decomposition of a successful candidate loop -/

theorem tryValues_true_elim (n : Nat) (r c : Nat) (b : List JSRow)
    (h0 : getCell b r c = JSCell.num 0) (hr : r < 9) (hc : c < 9)
    (hle : countZeros b ≤ n) :
    ∀ (vs : List ℚ), (∀ v ∈ vs, v ≠ (0 : ℚ)) →
    ∀ b2, tryValues (solveBoardF n) r c vs b = (true, b2) →
    ∃ pre v rest, vs = pre ++ v :: rest ∧
      (∀ w ∈ pre, isValid b r c w = true →
        (solveBoardF n (setCell b r c (JSCell.num w))).1 = false) ∧
      isValid b r c v = true ∧
      solveBoardF n (setCell b r c (JSCell.num v)) = (true, b2) := by
  intro vs
  induction vs with
  | nil =>
    intro _ b2 h
    unfold tryValues at h
    simp at h
  | cons v rest ihv =>
    intro hnz b2 h
    unfold tryValues at h
    by_cases hval : isValid b r c v = true
    · rw [if_pos hval] at h
      cases hres : solveBoardF n (setCell b r c (JSCell.num v)) with
      | mk ok b4 =>
        rw [hres] at h
        cases ok with
        | true =>
          simp only at h
          obtain ⟨rfl⟩ : b4 = b2 := by
            have := congrArg Prod.snd h
            simpa using this
          exact ⟨[], v, rest, rfl, by simp, hval, hres⟩
        | false =>
          simp only at h
          have hvne : JSCell.num v ≠ JSCell.num 0 := by
            intro he
            exact hnz v (List.mem_cons_self v rest) (JSCell.num.inj he)
          have hcz := countZeros_setCell h0 hr hc hvne
          have hb4 : b4 = setCell b r c (JSCell.num v) :=
            solveBoardF_false_eq n _ _ (by omega) hres
          rw [hb4, setCell_setCell,
            show JSCell.num (0 : ℚ) = getCell b r c from h0.symm,
            setCell_restore] at h
          obtain ⟨pre, v2, rest2, heq, hpre, hv2, hrec⟩ :=
            ihv (fun w hw => hnz w (List.mem_cons_of_mem v hw)) b2 h
          refine ⟨v :: pre, v2, rest2, by rw [heq]; rfl, ?_, hv2, hrec⟩
          intro w hw hwval
          rcases List.mem_cons.mp hw with rfl | hw2
          · rw [hres]
          · exact hpre w hw2 hwval
    · rw [if_neg hval] at h
      obtain ⟨pre, v2, rest2, heq, hpre, hv2, hrec⟩ :=
        ihv (fun w hw => hnz w (List.mem_cons_of_mem v hw)) b2 h
      refine ⟨v :: pre, v2, rest2, by rw [heq]; rfl, ?_, hv2, hrec⟩
      intro w hw hwval
      rcases List.mem_cons.mp hw with rfl | hw2
      · exact absurd hwval hval
      · exact hpre w hw2 hwval

/-! ### Soundness of a successful search -/

theorem solveBoardF_true_sound :
    ∀ n b b2, countZeros b < n → solveBoardF n b = (true, b2) →
      (∀ r c, r < 9 → c < 9 → getCell b r c ≠ JSCell.num 0 →
        getCell b2 r c = getCell b r c) ∧
      (∀ r c, r < 9 → c < 9 → getCell b r c = JSCell.num 0 →
        ∃ v ∈ candidates, getCell b2 r c = JSCell.num v) ∧
      b2.length = b.length ∧
      (∀ r2, rowLen (getRow b2 r2) = rowLen (getRow b r2)) ∧
      (NoConflicts b → NoConflicts b2) := by
  intro n
  induction n with
  | zero => intro b b2 hlt; exact absurd hlt (Nat.not_lt_zero _)
  | succ n ih =>
    intro b b2 hlt hrun
    rw [solveBoardF] at hrun
    cases hfz : firstZero b with
    | none =>
      rw [hfz] at hrun
      obtain ⟨rfl⟩ : b = b2 := by
        have := congrArg Prod.snd hrun
        simpa using this
      refine ⟨fun r c _ _ _ => rfl, fun r c hrlt hclt hcell => ?_,
        rfl, fun _ => rfl, fun hb => hb⟩
      exact absurd hcell ((firstZero_none_iff b).mp hfz r hrlt c hclt)
    | some rc =>
      rw [hfz] at hrun
      obtain ⟨hr, hc, h0, _⟩ := firstZero_some_spec b rc hfz
      obtain ⟨pre, v, rest, heq, hpre, hval, hrec⟩ :=
        tryValues_true_elim n rc.1 rc.2 b h0 hr hc (by omega)
          candidates candidates_nonzero b2 hrun
      have hvmem : v ∈ candidates := by
        rw [heq]
        exact List.mem_append.mpr (Or.inr (List.mem_cons_self v rest))
      have hvne : JSCell.num v ≠ JSCell.num 0 := by
        intro he
        exact candidates_nonzero v hvmem (JSCell.num.inj he)
      have hcz := countZeros_setCell h0 hr hc hvne
      have hset0 : getCell (setCell b rc.1 rc.2 (JSCell.num v)) rc.1 rc.2 =
          JSCell.num v := getCell_setCell_eq b rc.1 rc.2 _ (by simp) h0
      obtain ⟨p1, p2, p3, p4, p5⟩ := ih _ b2 (by omega) hrec
      refine ⟨?_, ?_, ?_, ?_, ?_⟩
      · intro r0 c0 hr0 hc0 hnz
        have hne : ¬(r0 = rc.1 ∧ c0 = rc.2) := by
          intro ⟨a1, a2⟩
          rw [a1, a2] at hnz
          exact hnz h0
        have hmid := getCell_setCell_ne b rc.1 rc.2 r0 c0 (JSCell.num v) hne
        rw [← hmid]
        rw [← hmid] at hnz
        exact p1 r0 c0 hr0 hc0 hnz
      · intro r0 c0 hr0 hc0 hz
        by_cases hne : r0 = rc.1 ∧ c0 = rc.2
        · obtain ⟨rfl, rfl⟩ := hne
          refine ⟨v, hvmem, ?_⟩
          rw [p1 rc.1 rc.2 hr hc (by rw [hset0]; exact hvne), hset0]
        · have hmid := getCell_setCell_ne b rc.1 rc.2 r0 c0 (JSCell.num v) hne
          exact p2 r0 c0 hr0 hc0 (by rw [hmid]; exact hz)
      · rw [p3, length_setCell]
      · intro r2
        rw [p4 r2, rowLen_setCell]
      · intro hb
        exact p5 (noConflicts_setCell hb h0 hr hc hval)

/-! ### Completeness: the search never misses an existing completion -/

theorem num_digit_ne_zero {d : Nat} (h1 : 1 ≤ d) :
    JSCell.num (d : ℚ) ≠ JSCell.num 0 := by
  intro he
  have h2 : (d : ℚ) = 0 := JSCell.num.inj he
  have h3 : d = 0 := by exact_mod_cast h2
  omega

theorem completes_setCell {b sol : List JSRow} {r c : Nat} {d : Nat}
    (hsol : Completes b sol) (h0 : getCell b r c = JSCell.num 0)
    (hcell : getCell sol r c = JSCell.num (d : ℚ)) :
    Completes (setCell b r c (JSCell.num (d : ℚ))) sol := by
  obtain ⟨hshape, hdigits, hconf, hagree⟩ := hsol
  refine ⟨hshape, hdigits, hconf, ?_⟩
  intro r0 h2 c0 h4 hnz
  by_cases hne : r0 = r ∧ c0 = c
  · obtain ⟨rfl, rfl⟩ := hne
    rw [getCell_setCell_eq b r0 c0 _ (by simp) h0]
    exact hcell
  · rw [getCell_setCell_ne b r c r0 c0 _ hne] at hnz ⊢
    exact hagree r0 h2 c0 h4 hnz

theorem solveBoardF_complete :
    ∀ n b, countZeros b < n → (∃ sol, Completes b sol) → (solveBoardF n b).1 = true := by
  intro n
  induction n with
  | zero => intro b hlt; exact absurd hlt (Nat.not_lt_zero _)
  | succ n ih =>
    intro b hlt ⟨sol, hsol⟩
    rw [solveBoardF]
    cases hfz : firstZero b with
    | none => rfl
    | some rc =>
      obtain ⟨hr, hc, h0, _⟩ := firstZero_some_spec b rc hfz
      obtain ⟨hshape, hdigits, hconf, hagree⟩ := hsol
      obtain ⟨d, hd10, hd1, hcell⟩ := hdigits rc.1 hr rc.2 hc
      have hdne : JSCell.num (d : ℚ) ≠ JSCell.num 0 := num_digit_ne_zero hd1
      have hdmem : (d : ℚ) ∈ candidates := digit_mem_candidates d hd1 (by omega)
      have hval : isValid b rc.1 rc.2 (d : ℚ) = true := by
        rw [isValid_iff_unit b rc.1 rc.2 _ hr hc]
        intro r2 h2 c2 h4 hsu heq
        have hne : ¬(rc.1 = r2 ∧ rc.2 = c2) := by
          intro ⟨a1, a2⟩
          rw [← a1, ← a2] at heq
          rw [heq] at h0
          exact hdne h0
        have hnz2 : getCell b r2 c2 ≠ JSCell.num 0 := by rw [heq]; exact hdne
        have hsol2 : getCell sol r2 c2 = JSCell.num (d : ℚ) := by
          rw [hagree r2 h2 c2 h4 hnz2, heq]
        have hcc := hconf rc.1 hr rc.2 hc r2 h2 c2 h4 hne hsu (by rw [hcell]; exact hdne)
        rw [hcell, hsol2] at hcc
        exact hcc rfl
      have hcomp1 : Completes (setCell b rc.1 rc.2 (JSCell.num (d : ℚ))) sol :=
        completes_setCell ⟨hshape, hdigits, hconf, hagree⟩ h0 hcell
      have hcz := countZeros_setCell h0 hr hc hdne
      have hrectrue : (solveBoardF n (setCell b rc.1 rc.2 (JSCell.num (d : ℚ)))).1 = true :=
        ih _ (by omega) ⟨sol, hcomp1⟩
      -- the candidate loop succeeds once some candidate leads to a solution
      have hble : countZeros b ≤ n := by omega
      have inner : ∀ (vs : List ℚ), (∀ w ∈ vs, w ≠ (0 : ℚ)) → (d : ℚ) ∈ vs →
          (tryValues (solveBoardF n) rc.1 rc.2 vs b).1 = true := by
        intro vs
        induction vs with
        | nil => intro _ hmem; simp at hmem
        | cons w rest ihv =>
          intro hnz hmem
          unfold tryValues
          by_cases hwv : isValid b rc.1 rc.2 w = true
          · rw [if_pos hwv]
            cases hres : solveBoardF n (setCell b rc.1 rc.2 (JSCell.num w)) with
            | mk ok b4 =>
              cases ok with
              | true => rfl
              | false =>
                simp only
                have hwne : JSCell.num w ≠ JSCell.num 0 := by
                  intro he
                  exact hnz w (List.mem_cons_self w rest) (JSCell.num.inj he)
                have hczw := countZeros_setCell h0 hr hc hwne
                have hb4 : b4 = setCell b rc.1 rc.2 (JSCell.num w) :=
                  solveBoardF_false_eq n _ _ (by omega) hres
                rw [hb4, setCell_setCell,
                  show JSCell.num (0 : ℚ) = getCell b rc.1 rc.2 from h0.symm,
                  setCell_restore]
                rcases List.mem_cons.mp hmem with heq | hdrest
                · rw [← heq] at hres
                  rw [hres] at hrectrue
                  simp at hrectrue
                · exact ihv (fun y hy => hnz y (List.mem_cons_of_mem w hy)) hdrest
          · rw [if_neg hwv]
            rcases List.mem_cons.mp hmem with heq | hdrest
            · rw [← heq] at hwv
              exact absurd hval hwv
            · exact ihv (fun y hy => hnz y (List.mem_cons_of_mem w hy)) hdrest
      exact inner candidates candidates_nonzero hdmem

/-! ### Lexicographic minimality of the found solution -/

theorem lex_of_agree_lt :
    ∀ (k : Nat) (l1 l2 : List ℚ), k < l1.length → k < l2.length →
      (∀ i, i < k → l1.getD i 0 = l2.getD i 0) →
      l1.getD k 0 < l2.getD k 0 → List.Lex (· < ·) l1 l2 := by
  intro k
  induction k with
  | zero =>
    intro l1 l2 h1 h2 _ hlt
    cases l1 with
    | nil => simp at h1
    | cons a t1 =>
      cases l2 with
      | nil => simp at h2
      | cons b t2 =>
        simp only [List.getD_cons_zero] at hlt
        exact List.Lex.rel hlt
  | succ k ihk =>
    intro l1 l2 h1 h2 hag hlt
    cases l1 with
    | nil => simp at h1
    | cons a t1 =>
      cases l2 with
      | nil => simp at h2
      | cons b t2 =>
        have hab : a = b := by
          have := hag 0 (Nat.succ_pos k)
          simpa using this
        subst hab
        refine List.Lex.cons (ihk t1 t2 (by simpa using h1) (by simpa using h2) ?_ ?_)
        · intro i hi
          have := hag (i + 1) (by omega)
          simpa using this
        · simpa using hlt

theorem list_getD_map {α β : Type} (f : α → β) (l : List α) (i : Nat)
    (d : β) (d0 : α) (h : i < l.length) :
    (l.map f).getD i d = f (l.getD i d0) := by
  induction l generalizing i with
  | nil => simp at h
  | cons a t ih =>
    cases i with
    | zero => rfl
    | succ j => simpa using ih j (by simpa using h)

theorem flatten_length (g : List JSRow) : (flatten g).length = 81 := by
  simp [flatten, allCells_length]

theorem flatten_getD (g : List JSRow) (i : Nat) (h : i < 81) :
    (flatten g).getD i 0 = cellQ (getCell g (i / 9) (i % 9)) := by
  unfold flatten
  rw [list_getD_map _ allCells i 0 (0, 0) (by rw [allCells_length]; exact h)]
  rw [allCells_getD i h]

theorem flatten_eq_of_cells {g1 g2 : List JSRow}
    (h : ∀ r c, r < 9 → c < 9 → getCell g1 r c = getCell g2 r c) :
    flatten g1 = flatten g2 := by
  unfold flatten
  apply List.map_congr_left
  intro rc hrc
  obtain ⟨h1, h2⟩ := allCells_bound rc hrc
  rw [h rc.1 rc.2 h1 h2]

theorem completion_digit_isValid {b sol : List JSRow} {r c : Nat} {d : Nat}
    (hsol : Completes b sol) (h0 : getCell b r c = JSCell.num 0)
    (hr : r < 9) (hc : c < 9) (hcell : getCell sol r c = JSCell.num (d : ℚ))
    (hd1 : 1 ≤ d) : isValid b r c (d : ℚ) = true := by
  obtain ⟨hshape, hdigits, hconf, hagree⟩ := hsol
  have hdne : JSCell.num (d : ℚ) ≠ JSCell.num 0 := num_digit_ne_zero hd1
  rw [isValid_iff_unit b r c _ hr hc]
  intro r2 h2 c2 h4 hsu heq
  have hne : ¬(r = r2 ∧ c = c2) := by
    intro ⟨a1, a2⟩
    rw [← a1, ← a2] at heq
    rw [heq] at h0
    exact hdne h0
  have hnz2 : getCell b r2 c2 ≠ JSCell.num 0 := by rw [heq]; exact hdne
  have hsol2 : getCell sol r2 c2 = JSCell.num (d : ℚ) := by
    rw [hagree r2 h2 c2 h4 hnz2, heq]
  have hcc := hconf r hr c hc r2 h2 c2 h4 hne hsu (by rw [hcell]; exact hdne)
  rw [hcell, hsol2] at hcc
  exact hcc rfl

theorem solveBoardF_lexmin :
    ∀ n b b2, countZeros b < n → solveBoardF n b = (true, b2) →
      ∀ sol, Completes b sol →
        flatten b2 = flatten sol ∨ List.Lex (· < ·) (flatten b2) (flatten sol) := by
  intro n
  induction n with
  | zero => intro b b2 hlt; exact absurd hlt (Nat.not_lt_zero _)
  | succ n ih =>
    intro b b2 hlt hrun sol hsol
    have hrun0 := hrun
    rw [solveBoardF] at hrun
    cases hfz : firstZero b with
    | none =>
      rw [hfz] at hrun
      obtain ⟨rfl⟩ : b = b2 := by
        have := congrArg Prod.snd hrun
        simpa using this
      left
      apply flatten_eq_of_cells
      intro r c hrlt hclt
      exact ((hsol.2.2.2) r hrlt c hclt
        ((firstZero_none_iff b).mp hfz r hrlt c hclt)).symm
    | some rc =>
      rw [hfz] at hrun
      obtain ⟨hr, hc, h0, hfirst⟩ := firstZero_some_spec b rc hfz
      obtain ⟨pre, v, rest, heq, hpre, hval, hrec⟩ :=
        tryValues_true_elim n rc.1 rc.2 b h0 hr hc (by omega)
          candidates candidates_nonzero b2 hrun
      have hvmem : v ∈ candidates := by
        rw [heq]
        exact List.mem_append.mpr (Or.inr (List.mem_cons_self v rest))
      have hvne : JSCell.num v ≠ JSCell.num 0 := by
        intro he
        exact candidates_nonzero v hvmem (JSCell.num.inj he)
      have hcz := countZeros_setCell h0 hr hc hvne
      obtain ⟨d, hd10, hd1, hcell⟩ := hsol.2.1 rc.1 hr rc.2 hc
      have hdne : JSCell.num (d : ℚ) ≠ JSCell.num 0 := num_digit_ne_zero hd1
      have hdmem : (d : ℚ) ∈ candidates := digit_mem_candidates d hd1 (by omega)
      have hdval : isValid b rc.1 rc.2 (d : ℚ) = true :=
        completion_digit_isValid hsol h0 hr hc hcell hd1
      rcases lt_trichotomy ((d : ℚ)) v with hdv | hdv | hdv
      · -- a smaller digit would have succeeded first: impossible
        exfalso
        have hdpre : (d : ℚ) ∈ pre := candidates_split_lt heq (d : ℚ) hdmem hdv
        have hfail := hpre (d : ℚ) hdpre hdval
        have hczd := countZeros_setCell h0 hr hc hdne
        have hok := solveBoardF_complete n (setCell b rc.1 rc.2 (JSCell.num (d : ℚ)))
          (by omega) ⟨sol, completes_setCell hsol h0 hcell⟩
        rw [hok] at hfail
        exact Bool.noConfusion hfail
      · -- the same digit: recurse
        have hcomp1 : Completes (setCell b rc.1 rc.2 (JSCell.num v)) sol := by
          rw [← hdv]
          exact completes_setCell hsol h0 hcell
        exact ih _ b2 (by omega) hrec sol hcomp1
      · -- the solver chose a smaller digit: strictly lexicographically smaller
        right
        obtain ⟨s1, _, _, _, _⟩ := solveBoardF_true_sound (n + 1) b b2 hlt hrun0
        have hsetv : getCell (setCell b rc.1 rc.2 (JSCell.num v)) rc.1 rc.2 =
            JSCell.num v := getCell_setCell_eq b rc.1 rc.2 _ (by simp) h0
        obtain ⟨t1, _, _, _, _⟩ := solveBoardF_true_sound n _ b2 (by omega) hrec
        have hb2v : getCell b2 rc.1 rc.2 = JSCell.num v := by
          rw [t1 rc.1 rc.2 hr hc (by rw [hsetv]; exact hvne), hsetv]
        have hk81 : rc.1 * 9 + rc.2 < 81 := by omega
        apply lex_of_agree_lt (rc.1 * 9 + rc.2)
        · rw [flatten_length]; exact hk81
        · rw [flatten_length]; exact hk81
        · intro i hi
          have hi81 : i < 81 := by omega
          have hir : i / 9 < 9 := by omega
          have hic : i % 9 < 9 := by omega
          have hidx : i / 9 * 9 + i % 9 = i := by omega
          have hbnz : getCell b (i / 9) (i % 9) ≠ JSCell.num 0 :=
            hfirst (i / 9) (i % 9) hir hic (by omega)
          rw [flatten_getD b2 i hi81, flatten_getD sol i hi81,
            s1 (i / 9) (i % 9) hir hic hbnz,
            hsol.2.2.2 (i / 9) hir (i % 9) hic hbnz]
        · have hkr : (rc.1 * 9 + rc.2) / 9 = rc.1 := by omega
          have hkc : (rc.1 * 9 + rc.2) % 9 = rc.2 := by omega
          rw [flatten_getD b2 _ hk81, flatten_getD sol _ hk81, hkr, hkc,
            hb2v, hcell]
          exact hdv

/-! ### The validation loop: per-cell facts -/

theorem inRangeCell_num_iff {q : ℚ} :
    inRangeCell (JSCell.num q) = true ↔ 0 ≤ q ∧ q ≤ 9 := by
  simp [inRangeCell]

theorem checkCell_ok_elim {b : List JSRow} {r c : Nat} {b3 : List JSRow}
    (h : checkCell b r c = Except.ok b3) :
    b3 = b ∧ ∃ q, getCell b r c = JSCell.num q ∧ 0 ≤ q ∧ q ≤ 9 ∧
      (q ≠ 0 → isValid (setCell b r c (JSCell.num 0)) r c q = true) := by
  cases hcell : getCell b r c with
  | num q =>
    simp only [checkCell, hcell] at h
    by_cases hrange : q < 0 ∨ q > 9
    · rw [if_pos hrange] at h
      exact Except.noConfusion h
    · rw [if_neg hrange] at h
      push_neg at hrange
      by_cases hq0 : q = 0
      · rw [if_pos hq0] at h
        refine ⟨(Except.ok.inj h).symm, q, rfl, hrange.1, hrange.2, ?_⟩
        intro hq
        exact absurd hq0 hq
      · rw [if_neg hq0] at h
        by_cases hvalid : isValid (setCell b r c (JSCell.num 0)) r c q = true
        · rw [if_pos hvalid] at h
          have hb3 := (Except.ok.inj h).symm
          rw [setCell_setCell, show JSCell.num q = getCell b r c from hcell.symm,
            setCell_restore] at hb3
          exact ⟨hb3, q, rfl, hrange.1, hrange.2, fun _ => hvalid⟩
        · rw [if_neg hvalid] at h
          exact Except.noConfusion h
  | nanOrInf => simp only [checkCell, hcell] at h; exact Except.noConfusion h
  | str s => simp only [checkCell, hcell] at h; exact Except.noConfusion h
  | obj => simp only [checkCell, hcell] at h; exact Except.noConfusion h

theorem checkCell_error_elim {b : List JSRow} {r c : Nat} {e : String}
    (h : checkCell b r c = Except.error e) :
    (e = rangeMsg ∧ inRangeCell (getCell b r c) = false) ∨
    (e = conflictMsg ∧ ∃ q, getCell b r c = JSCell.num q ∧ 0 ≤ q ∧ q ≤ 9 ∧ q ≠ 0 ∧
      isValid (setCell b r c (JSCell.num 0)) r c q = false) := by
  cases hcell : getCell b r c with
  | num q =>
    simp only [checkCell, hcell] at h
    by_cases hrange : q < 0 ∨ q > 9
    · rw [if_pos hrange] at h
      refine Or.inl ⟨(Except.error.inj h).symm, ?_⟩
      simp only [inRangeCell, decide_eq_false_iff_not]
      intro ⟨h1, h2⟩
      rcases hrange with h3 | h3
      · exact absurd h1 (not_le_of_lt h3)
      · exact absurd h2 (not_le_of_lt h3)
    · rw [if_neg hrange] at h
      push_neg at hrange
      by_cases hq0 : q = 0
      · rw [if_pos hq0] at h
        exact Except.noConfusion h
      · rw [if_neg hq0] at h
        by_cases hvalid : isValid (setCell b r c (JSCell.num 0)) r c q = true
        · rw [if_pos hvalid] at h
          exact Except.noConfusion h
        · rw [if_neg hvalid] at h
          exact Or.inr ⟨(Except.error.inj h).symm, q, rfl, hrange.1, hrange.2, hq0,
            Bool.not_eq_true _ ▸ hvalid⟩
  | nanOrInf =>
    simp only [checkCell, hcell] at h
    refine Or.inl ⟨(Except.error.inj h).symm, rfl⟩
  | str s =>
    simp only [checkCell, hcell] at h
    refine Or.inl ⟨(Except.error.inj h).symm, rfl⟩
  | obj =>
    simp only [checkCell, hcell] at h
    refine Or.inl ⟨(Except.error.inj h).symm, rfl⟩

theorem checkCell_intro_ok {b : List JSRow} {r c : Nat}
    (hrange : inRangeCell (getCell b r c) = true)
    (hconf : ∀ q, getCell b r c = JSCell.num q → q ≠ 0 →
      isValid (setCell b r c (JSCell.num 0)) r c q = true) :
    checkCell b r c = Except.ok b := by
  cases hcell : getCell b r c with
  | num q =>
    rw [hcell] at hrange
    obtain ⟨h1, h2⟩ := inRangeCell_num_iff.mp hrange
    simp only [checkCell, hcell]
    rw [if_neg (by push_neg; exact ⟨h1, h2⟩)]
    by_cases hq0 : q = 0
    · rw [if_pos hq0]
    · rw [if_neg hq0, if_pos (hconf q hcell hq0), setCell_setCell,
        show JSCell.num q = getCell b r c from hcell.symm, setCell_restore]
  | nanOrInf => rw [hcell] at hrange; exact Bool.noConfusion hrange
  | str s => rw [hcell] at hrange; exact Bool.noConfusion hrange
  | obj => rw [hcell] at hrange; exact Bool.noConfusion hrange

/-! ### The validation loop: per-row and whole-board facts -/

theorem checkCols_ok_elim {r : Nat} :
    ∀ (cs : List Nat) (b b3 : List JSRow), checkCols b r cs = Except.ok b3 →
      b3 = b ∧ ∀ c ∈ cs, checkCell b r c = Except.ok b := by
  intro cs
  induction cs with
  | nil =>
    intro b b3 h
    unfold checkCols at h
    exact ⟨(Except.ok.inj h).symm, by simp⟩
  | cons c rest ih =>
    intro b b3 h
    unfold checkCols at h
    cases hc1 : checkCell b r c with
    | ok b4 =>
      rw [hc1] at h
      obtain ⟨rfl⟩ : b4 = b := (checkCell_ok_elim hc1).1
      obtain ⟨h1, h2⟩ := ih b b3 h
      refine ⟨h1, ?_⟩
      intro c2 hc2
      rcases List.mem_cons.mp hc2 with rfl | hmem
      · exact hc1
      · exact h2 c2 hmem
    | error e =>
      rw [hc1] at h
      exact Except.noConfusion h

theorem checkCols_error_elim {r : Nat} :
    ∀ (cs : List Nat) (b : List JSRow) {e : String},
      checkCols b r cs = Except.error e →
      ∃ c ∈ cs, checkCell b r c = Except.error e := by
  intro cs
  induction cs with
  | nil =>
    intro b e h
    unfold checkCols at h
    exact Except.noConfusion h
  | cons c rest ih =>
    intro b e h
    unfold checkCols at h
    cases hc1 : checkCell b r c with
    | ok b4 =>
      rw [hc1] at h
      obtain ⟨rfl⟩ : b4 = b := (checkCell_ok_elim hc1).1
      obtain ⟨c2, hmem, herr⟩ := ih b h
      exact ⟨c2, List.mem_cons_of_mem c hmem, herr⟩
    | error e2 =>
      rw [hc1] at h
      obtain ⟨rfl⟩ : e2 = e := Except.error.inj h
      exact ⟨c, List.mem_cons_self c rest, hc1⟩

theorem checkCols_intro {r : Nat} :
    ∀ (cs : List Nat) (b : List JSRow),
      (∀ c ∈ cs, checkCell b r c = Except.ok b) →
      checkCols b r cs = Except.ok b := by
  intro cs
  induction cs with
  | nil => intro b _; rfl
  | cons c rest ih =>
    intro b hall
    unfold checkCols
    rw [hall c (List.mem_cons_self c rest)]
    exact ih b (fun c2 hc2 => hall c2 (List.mem_cons_of_mem c hc2))

theorem checkRow_ok_elim {b : List JSRow} {r : Nat} {b3 : List JSRow}
    (h : checkRow b r = Except.ok b3) :
    b3 = b ∧ rowLen (getRow b r) = some 9 ∧
      ∀ c ∈ List.range 9, checkCell b r c = Except.ok b := by
  cases hrow : getRow b r with
  | arr cells =>
    simp only [checkRow, hrow] at h
    by_cases hlen : cells.length = 9
    · rw [if_pos hlen] at h
      obtain ⟨h1, h2⟩ := checkCols_ok_elim (List.range 9) b b3 h
      exact ⟨h1, by simp [rowLen, hlen], h2⟩
    · rw [if_neg hlen] at h
      exact Except.noConfusion h
  | str s => simp only [checkRow, hrow] at h; exact Except.noConfusion h
  | other => simp only [checkRow, hrow] at h; exact Except.noConfusion h

theorem checkRow_error_elim {b : List JSRow} {r : Nat} {e : String}
    (h : checkRow b r = Except.error e) :
    (e = rowMsg r ∧ rowLen (getRow b r) ≠ some 9) ∨
    (rowLen (getRow b r) = some 9 ∧
      ∃ c ∈ List.range 9, checkCell b r c = Except.error e) := by
  cases hrow : getRow b r with
  | arr cells =>
    simp only [checkRow, hrow] at h
    by_cases hlen : cells.length = 9
    · rw [if_pos hlen] at h
      exact Or.inr ⟨by simp [rowLen, hlen], checkCols_error_elim (List.range 9) b h⟩
    · rw [if_neg hlen] at h
      refine Or.inl ⟨(Except.error.inj h).symm, ?_⟩
      simp [rowLen]
      exact hlen
  | str s =>
    simp only [checkRow, hrow] at h
    exact Or.inl ⟨(Except.error.inj h).symm, by simp [rowLen]⟩
  | other =>
    simp only [checkRow, hrow] at h
    exact Or.inl ⟨(Except.error.inj h).symm, by simp [rowLen]⟩

theorem checkRow_intro {b : List JSRow} {r : Nat}
    (hlen : rowLen (getRow b r) = some 9)
    (hall : ∀ c ∈ List.range 9, checkCell b r c = Except.ok b) :
    checkRow b r = Except.ok b := by
  cases hrow : getRow b r with
  | arr cells =>
    rw [hrow] at hlen
    have hlen2 : cells.length = 9 := by
      simpa [rowLen] using hlen
    simp only [checkRow, hrow]
    rw [if_pos hlen2]
    exact checkCols_intro (List.range 9) b hall
  | str s => rw [hrow] at hlen; exact Option.noConfusion hlen
  | other => rw [hrow] at hlen; exact Option.noConfusion hlen

theorem checkRows_ok_elim :
    ∀ (rs : List Nat) (b b3 : List JSRow), checkRows b rs = Except.ok b3 →
      b3 = b ∧ ∀ r ∈ rs, checkRow b r = Except.ok b := by
  intro rs
  induction rs with
  | nil =>
    intro b b3 h
    unfold checkRows at h
    exact ⟨(Except.ok.inj h).symm, by simp⟩
  | cons r rest ih =>
    intro b b3 h
    unfold checkRows at h
    cases hr1 : checkRow b r with
    | ok b4 =>
      rw [hr1] at h
      obtain ⟨rfl⟩ : b4 = b := (checkRow_ok_elim hr1).1
      obtain ⟨h1, h2⟩ := ih b b3 h
      refine ⟨h1, ?_⟩
      intro r2 hr2
      rcases List.mem_cons.mp hr2 with rfl | hmem
      · exact hr1
      · exact h2 r2 hmem
    | error e =>
      rw [hr1] at h
      exact Except.noConfusion h

theorem checkRows_error_elim :
    ∀ (rs : List Nat) (b : List JSRow) {e : String},
      checkRows b rs = Except.error e →
      ∃ r ∈ rs, checkRow b r = Except.error e := by
  intro rs
  induction rs with
  | nil =>
    intro b e h
    unfold checkRows at h
    exact Except.noConfusion h
  | cons r rest ih =>
    intro b e h
    unfold checkRows at h
    cases hr1 : checkRow b r with
    | ok b4 =>
      rw [hr1] at h
      obtain ⟨rfl⟩ : b4 = b := (checkRow_ok_elim hr1).1
      obtain ⟨r2, hmem, herr⟩ := ih b h
      exact ⟨r2, List.mem_cons_of_mem r hmem, herr⟩
    | error e2 =>
      rw [hr1] at h
      obtain ⟨rfl⟩ : e2 = e := Except.error.inj h
      exact ⟨r, List.mem_cons_self r rest, hr1⟩

theorem checkRows_intro :
    ∀ (rs : List Nat) (b : List JSRow),
      (∀ r ∈ rs, checkRow b r = Except.ok b) →
      checkRows b rs = Except.ok b := by
  intro rs
  induction rs with
  | nil => intro b _; rfl
  | cons r rest ih =>
    intro b hall
    unfold checkRows
    rw [hall r (List.mem_cons_self r rest)]
    exact ih b (fun r2 hr2 => hall r2 (List.mem_cons_of_mem r hr2))

/-! ### Top-level validation characterisations -/

theorem validate_cell_ok {b : List JSRow} {r c : Nat} (hr : r < 9) (hc : c < 9)
    (hrange : inRangeCell (getCell b r c) = true) (hnc : NoConflicts b) :
    checkCell b r c = Except.ok b := by
  apply checkCell_intro_ok hrange
  intro q hcell hq0
  rw [isValid_iff_unit _ r c q hr hc]
  intro r2 h2 c2 h4 hsu
  by_cases hne : r2 = r ∧ c2 = c
  · obtain ⟨rfl, rfl⟩ := hne
    rw [getCell_setCell_eq b r2 c2 _ (by simp) hcell]
    intro he
    exact hq0 (JSCell.num.inj he).symm
  · rw [getCell_setCell_ne b r c r2 c2 _ hne]
    intro he
    have hne2 : ¬(r = r2 ∧ c = c2) := fun ⟨a1, a2⟩ => hne ⟨a1.symm, a2.symm⟩
    have := hnc r hr c hc r2 h2 c2 h4 hne2 hsu
      (by rw [hcell]; intro h0; exact hq0 (JSCell.num.inj h0))
    rw [hcell, he] at this
    exact this rfl

theorem validate_pass {b : List JSRow} (hs : Shape9 b)
    (hrange : ∀ r, r < 9 → ∀ c, c < 9 → inRangeCell (getCell b r c) = true)
    (hnc : NoConflicts b) :
    checkRows b (List.range 9) = Except.ok b := by
  apply checkRows_intro
  intro r hrmem
  have hr : r < 9 := List.mem_range.mp hrmem
  apply checkRow_intro (hs.2 r hr)
  intro c hcmem
  have hc : c < 9 := List.mem_range.mp hcmem
  exact validate_cell_ok hr hc (hrange r hr c hc) hnc

theorem noConflicts_of_pass {b b3 : List JSRow}
    (hpass : checkRows b (List.range 9) = Except.ok b3) : NoConflicts b := by
  obtain ⟨_, hrows⟩ := checkRows_ok_elim (List.range 9) b b3 hpass
  intro r1 h1 c1 h2 r2 h3 c2 h4 hne hsu hz
  obtain ⟨_, _, hcells⟩ := checkRow_ok_elim (hrows r1 (List.mem_range.mpr h1))
  obtain ⟨_, q, hcell, _, _, hvalid⟩ :=
    checkCell_ok_elim (hcells c1 (List.mem_range.mpr h2))
  have hq0 : q ≠ 0 := by
    intro he
    rw [he] at hcell
    exact hz hcell
  have hv := hvalid hq0
  rw [isValid_iff_unit _ r1 c1 q h1 h2] at hv
  have hcl := hv r2 h3 c2 h4 hsu
  have hne2 : ¬(r2 = r1 ∧ c2 = c1) := fun ⟨a1, a2⟩ => hne ⟨a1.symm, a2.symm⟩
  rw [getCell_setCell_ne b r1 c1 r2 c2 _ hne2] at hcl
  rw [hcell]
  intro he
  exact hcl he.symm

theorem conflict_of_checkCell {b : List JSRow} {r c : Nat} (hr : r < 9) (hc : c < 9)
    (h : checkCell b r c = Except.error conflictMsg) : HasConflict b := by
  rcases checkCell_error_elim h with ⟨hmsg, _⟩ | ⟨_, q, hcell, _, _, hq0, hvalid⟩
  · exact absurd hmsg.symm (by decide)
  · have hnv : ¬isValid (setCell b r c (JSCell.num 0)) r c q = true := by
      rw [hvalid]; exact Bool.noConfusion
    rw [isValid_iff_unit _ r c q hr hc] at hnv
    push_neg at hnv
    obtain ⟨r2, h2, c2, h4, hsu, heq⟩ := hnv
    have hne : ¬(r2 = r ∧ c2 = c) := by
      intro ⟨rfl, rfl⟩
      rw [getCell_setCell_eq b r2 c2 _ (by simp) hcell] at heq
      exact hq0 (JSCell.num.inj heq).symm
    rw [getCell_setCell_ne b r c r2 c2 _ hne] at heq
    refine ⟨r, hr, c, hc, r2, h2, c2, h4, ?_, hsu, ?_, ?_⟩
    · intro ⟨a1, a2⟩
      exact hne ⟨a1.symm, a2.symm⟩
    · rw [hcell]
      intro he
      exact hq0 (JSCell.num.inj he)
    · rw [hcell, heq]

/-! ### The working copy -/

theorem sliceAll_of_rows :
    ∀ rs : List JSRow, (∀ row ∈ rs, sliceRow row = some row) → sliceAll rs = some rs := by
  intro rs
  induction rs with
  | nil => intro _; rfl
  | cons row rest ih =>
    intro hall
    unfold sliceAll
    rw [hall row (List.mem_cons_self row rest),
      ih (fun y hy => hall y (List.mem_cons_of_mem row hy))]

theorem list_getD_lt {α : Type} (l : List α) (i : Nat) (d : α) (h : i < l.length) :
    l.getD i d = l.get ⟨i, h⟩ := by
  induction l generalizing i with
  | nil => simp at h
  | cons a t ih =>
    cases i with
    | zero => rfl
    | succ j => simpa using ih j (by simpa using h)

theorem shape9_sliceAll {b : List JSRow} (hs : Shape9 b) : sliceAll b = some b := by
  apply sliceAll_of_rows
  intro row hmem
  obtain ⟨i, hrow⟩ := List.mem_iff_get.mp hmem
  have hi9 : (i : Nat) < 9 := by
    have h2 := i.isLt
    have h3 := hs.1
    omega
  have hget : getRow b i = row := by
    unfold getRow
    rw [list_getD_lt b i JSRow.other i.isLt]
    rw [← hrow]
  have hlen := hs.2 i hi9
  rw [hget] at hlen
  cases row with
  | arr cells => rfl
  | str s2 => exact Option.noConfusion hlen
  | other => exact Option.noConfusion hlen

/-! ### `solveSudoku` on well-formed inputs -/

theorem solveSudoku_of_pass {rs : List JSRow} (h9 : rs.length = 9)
    (hslice : sliceAll rs = some rs)
    (hpass : checkRows rs (List.range 9) = Except.ok rs) :
    solveSudoku (JSInput.arr rs) =
      (if (solveBoard rs).1 then Outcome.ok (solveBoard rs).2
       else Outcome.err unsolvableMsg) := by
  simp only [solveSudoku]
  rw [if_pos h9, hslice]
  dsimp only
  rw [hpass]
  dsimp only
  cases hsb : solveBoard rs with
  | mk ok s =>
    cases ok with
    | true => rfl
    | false => rfl

theorem solveSudoku_err_of_checkErr {rs : List JSRow} {e : String} (h9 : rs.length = 9)
    (hslice : sliceAll rs = some rs)
    (herr : checkRows rs (List.range 9) = Except.error e) :
    solveSudoku (JSInput.arr rs) = Outcome.err e := by
  simp only [solveSudoku]
  rw [if_pos h9, hslice]
  dsimp only
  rw [herr]

theorem digitGrid_inRange {b : List JSRow} (h : DigitGrid b) :
    ∀ r, r < 9 → ∀ c, c < 9 → inRangeCell (getCell b r c) = true := by
  intro r hr c hc
  obtain ⟨d, hd10, hcell⟩ := h.2 r hr c hc
  rw [hcell, inRangeCell_num_iff]
  constructor
  · exact Nat.cast_nonneg d
  · have : (d : ℚ) ≤ (9 : Nat) := by exact_mod_cast Nat.le_of_lt_succ hd10
    simpa using this

theorem allDigits_no_zero {b : List JSRow} (h : AllDigits b) :
    ∀ r, r < 9 → ∀ c, c < 9 → getCell b r c ≠ JSCell.num 0 := by
  intro r hr c hc
  obtain ⟨d, _, hd1, hcell⟩ := h r hr c hc
  rw [hcell]
  exact num_digit_ne_zero hd1

theorem solveBoard_of_full {b : List JSRow} (h : firstZero b = none) :
    solveBoard b = (true, b) := by
  unfold solveBoard
  rw [solveBoardF, h]

theorem checkRows_pass_of_digitGrid {rs : List JSRow} (hd : DigitGrid rs)
    (hnc : NoConflicts rs) : checkRows rs (List.range 9) = Except.ok rs :=
  validate_pass hd.1 (digitGrid_inRange hd) hnc

/-- For a conflict-free digit grid, `solveSudoku` reduces to the backtracking
search on the grid itself. -/
theorem solveSudoku_digitGrid {rs : List JSRow} (hd : DigitGrid rs)
    (hnc : NoConflicts rs) :
    solveSudoku (JSInput.arr rs) =
      (if (solveBoard rs).1 then Outcome.ok (solveBoard rs).2
       else Outcome.err unsolvableMsg) :=
  solveSudoku_of_pass hd.1.1 (shape9_sliceAll hd.1) (checkRows_pass_of_digitGrid hd hnc)

/-- A successful `solveBoard` run on a conflict-free digit grid produces a
completion of the grid. -/
theorem solveBoard_true_completes {rs s : List JSRow} (hd : DigitGrid rs)
    (hnc : NoConflicts rs) (h : solveBoard rs = (true, s)) : Completes rs s := by
  obtain ⟨p1, p2, p3, p4, p5⟩ :=
    solveBoardF_true_sound (countZeros rs + 1) rs s (by omega) h
  refine ⟨⟨by rw [p3]; exact hd.1.1, fun r hr => by rw [p4 r]; exact hd.1.2 r hr⟩,
    ?_, p5 hnc, fun r hr c hc => p1 r c hr hc⟩
  intro r hr c hc
  obtain ⟨d, hd10, hcell⟩ := hd.2 r hr c hc
  by_cases hz : getCell rs r c = JSCell.num 0
  · obtain ⟨v, hvmem, hv⟩ := p2 r c hr hc hz
    obtain ⟨d2, hd21, hd29, hd2v⟩ := candidates_digit v hvmem
    exact ⟨d2, by omega, hd21, by rw [hv, hd2v]⟩
  · have hd1 : 1 ≤ d := by
      rcases Nat.eq_zero_or_pos d with rfl | hpos
      · rw [hcell] at hz
        simp at hz
      · exact hpos
    exact ⟨d, hd10, hd1, by rw [p1 r c hr hc hz]; exact hcell⟩

/-! ### Claim theorems -/

theorem solveBoard_eta (rs : List JSRow) (h : (solveBoard rs).1 = true) :
    solveBoard rs = (true, (solveBoard rs).2) := by
  have he : solveBoard rs = ((solveBoard rs).1, (solveBoard rs).2) := rfl
  rw [he, h]

/-- An already-complete, conflict-free digit grid is returned unchanged:
validation passes, and the first scan of `solveBoard` finds no empty cell. -/
theorem solveSudoku_full_id {rs : List JSRow} (hd : DigitGrid rs)
    (ha : AllDigits rs) (hnc : NoConflicts rs) :
    solveSudoku (JSInput.arr rs) = Outcome.ok rs := by
  rw [solveSudoku_digitGrid hd hnc,
    solveBoard_of_full ((firstZero_none_iff rs).mpr (allDigits_no_zero ha))]
  rfl

/-- C1.  For a 9×9 integer grid in [0, 9] with no pre-existing conflict, any
solution grid returned by `solveSudoku` is a 9×9 grid of digits 1-9 with no
two equal values sharing a row, column, or 3×3 box, and it agrees with the
input on every originally non-zero cell (these four properties are the
definition of `Completes`). -/
theorem claimC1_solution_sound (rs g : List JSRow) (hd : DigitGrid rs)
    (hnc : NoConflicts rs) (h : solveSudoku (JSInput.arr rs) = Outcome.ok g) :
    Completes rs g := by
  rw [solveSudoku_digitGrid hd hnc] at h
  by_cases hsb : (solveBoard rs).1 = true
  · rw [if_pos hsb] at h
    have hg : (solveBoard rs).2 = g := Outcome.ok.inj h
    have hrun : solveBoard rs = (true, g) := by
      rw [solveBoard_eta rs hsb, hg]
    exact solveBoard_true_completes hd hnc hrun
  · rw [if_neg hsb] at h
    exact Outcome.noConfusion h

theorem claimC1_witness : Completes fullGrid fullGrid :=
  claimC1_solution_sound fullGrid fullGrid (by decide) (by decide)
    (solveSudoku_full_id (by decide) (by decide) (by decide))

/-- C2.  For a 9×9 integer grid in [0, 9] with no pre-existing conflict,
`solveSudoku` answers "No solution found." exactly when no completion of
the grid exists: the backtracking search is exhaustive. -/
theorem claimC2_unsolvable_iff (rs : List JSRow) (hd : DigitGrid rs)
    (hnc : NoConflicts rs) :
    solveSudoku (JSInput.arr rs) = Outcome.err unsolvableMsg ↔
      ¬∃ sol, Completes rs sol := by
  rw [solveSudoku_digitGrid hd hnc]
  constructor
  · intro h hex
    by_cases hsb : (solveBoard rs).1 = true
    · rw [if_pos hsb] at h
      exact Outcome.noConfusion h
    · exact hsb (solveBoardF_complete (countZeros rs + 1) rs (by omega) hex)
  · intro hnex
    by_cases hsb : (solveBoard rs).1 = true
    · exfalso
      exact hnex ⟨(solveBoard rs).2,
        solveBoard_true_completes hd hnc (solveBoard_eta rs hsb)⟩
    · rw [if_neg hsb]

theorem claimC2_witness :
    solveSudoku (JSInput.arr fullGrid) = Outcome.err unsolvableMsg ↔
      ¬∃ sol, Completes fullGrid sol :=
  claimC2_unsolvable_iff fullGrid (by decide) (by decide)

/-- C10.  A grid that is already a valid complete solution is returned
unchanged: the search engine's first scan finds no empty cell and accepts
the board immediately. -/
theorem claimC10_identity (rs : List JSRow) (hd : DigitGrid rs)
    (ha : AllDigits rs) (hnc : NoConflicts rs) :
    solveSudoku (JSInput.arr rs) = Outcome.ok rs :=
  solveSudoku_full_id hd ha hnc

theorem claimC10_witness : solveSudoku (JSInput.arr fullGrid) = Outcome.ok fullGrid :=
  claimC10_identity fullGrid (by decide) (by decide) (by decide)

/-- C7.  For a valid, conflict-free grid with at least one completion, the
solver succeeds and the returned grid is the lexicographically least
completion, comparing the 81 cells in row-major order.  Determinism is
immediate: `solveSudoku` is a function of the input grid. -/
theorem claimC7_lex_minimal (rs : List JSRow) (hd : DigitGrid rs)
    (hnc : NoConflicts rs) (hex : ∃ sol, Completes rs sol) :
    ∃ g, solveSudoku (JSInput.arr rs) = Outcome.ok g ∧ Completes rs g ∧
      ∀ sol, Completes rs sol →
        flatten g = flatten sol ∨ List.Lex (· < ·) (flatten g) (flatten sol) := by
  have hsb : (solveBoard rs).1 = true :=
    solveBoardF_complete (countZeros rs + 1) rs (by omega) hex
  refine ⟨(solveBoard rs).2, ?_, ?_, ?_⟩
  · rw [solveSudoku_digitGrid hd hnc, if_pos hsb]
  · exact solveBoard_true_completes hd hnc (solveBoard_eta rs hsb)
  · intro sol hsol
    exact solveBoardF_lexmin (countZeros rs + 1) rs _ (by omega)
      (solveBoard_eta rs hsb) sol hsol

theorem claimC7_witness :
    ∃ g, solveSudoku (JSInput.arr fullGrid) = Outcome.ok g ∧ Completes fullGrid g ∧
      ∀ sol, Completes fullGrid sol →
        flatten g = flatten sol ∨ List.Lex (· < ·) (flatten g) (flatten sol) :=
  claimC7_lex_minimal fullGrid (by decide) (by decide) ⟨fullGrid, by decide⟩

/-- C8.  `isValid(board, r, c, d)` is true exactly when no cell of row `r`,
no cell of column `c`, and no cell of the 3×3 box containing `(r, c)`
holds `d`.  The embedding of `isValid` is a pure function of the board — it
performs no writes, mirroring that the source never mutates the grid. -/
theorem claimC8_isValid_iff (b : List JSRow) (r c : Nat) (d : Nat)
    (hs : Shape9 b) (hr : r < 9) (hc : c < 9) (hd1 : 1 ≤ d) (hd9 : d ≤ 9)
    (h0 : getCell b r c = JSCell.num 0) :
    isValid b r c (d : ℚ) = true ↔
      (∀ i, i < 9 → getCell b r i ≠ JSCell.num (d : ℚ)) ∧
      (∀ i, i < 9 → getCell b i c ≠ JSCell.num (d : ℚ)) ∧
      (∀ i, i < 3 → ∀ j, j < 3 →
        getCell b (r / 3 * 3 + i) (c / 3 * 3 + j) ≠ JSCell.num (d : ℚ)) :=
  isValid_iff_cells b r c (d : ℚ)

theorem claimC8_witness :
    isValid (List.replicate 9 zeroRow) 0 0 ((5 : Nat) : ℚ) = true ↔
      (∀ i, i < 9 → getCell (List.replicate 9 zeroRow) 0 i ≠ JSCell.num ((5 : Nat) : ℚ)) ∧
      (∀ i, i < 9 → getCell (List.replicate 9 zeroRow) i 0 ≠ JSCell.num ((5 : Nat) : ℚ)) ∧
      (∀ i, i < 3 → ∀ j, j < 3 →
        getCell (List.replicate 9 zeroRow) (0 / 3 * 3 + i) (0 / 3 * 3 + j) ≠
          JSCell.num ((5 : Nat) : ℚ)) :=
  claimC8_isValid_iff (List.replicate 9 zeroRow) 0 0 5 (by decide) (by decide)
    (by decide) (by decide) (by decide) (by decide)

/-- C6.  For a 9×9 integer grid in [0, 9], `solveSudoku` reports
"Puzzle has conflicting values." exactly when two distinct cells holding
the same non-zero value share a row, column, or 3×3 box. -/
theorem claimC6_conflict_iff (rs : List JSRow) (hd : DigitGrid rs) :
    solveSudoku (JSInput.arr rs) = Outcome.err conflictMsg ↔ HasConflict rs := by
  constructor
  · intro h
    by_cases hnc : NoConflicts rs
    · exfalso
      rw [solveSudoku_digitGrid hd hnc] at h
      by_cases hsb : (solveBoard rs).1 = true
      · rw [if_pos hsb] at h
        exact Outcome.noConfusion h
      · rw [if_neg hsb] at h
        exact absurd (Outcome.err.inj h) (by decide)
    · exact (hasConflict_iff_not rs).mpr hnc
  · intro hconf
    have hnc : ¬NoConflicts rs := (hasConflict_iff_not rs).mp hconf
    cases hcr : checkRows rs (List.range 9) with
    | ok b3 => exact absurd (noConflicts_of_pass hcr) hnc
    | error e =>
      have he : e = conflictMsg := by
        obtain ⟨r, hrmem, herr⟩ := checkRows_error_elim (List.range 9) rs hcr
        have hr9 := List.mem_range.mp hrmem
        rcases checkRow_error_elim herr with ⟨_, hlen⟩ | ⟨_, c, hcmem, herr2⟩
        · exact absurd (hd.1.2 r hr9) hlen
        · rcases checkCell_error_elim herr2 with ⟨_, hbad⟩ | ⟨hmsg, _⟩
          · rw [digitGrid_inRange hd r hr9 c (List.mem_range.mp hcmem)] at hbad
            exact Bool.noConfusion hbad
          · exact hmsg
      rw [he] at hcr
      exact solveSudoku_err_of_checkErr hd.1.1 (shape9_sliceAll hd.1) hcr

theorem claimC6_witness :
    solveSudoku (JSInput.arr conflictGrid) = Outcome.err conflictMsg ↔
      HasConflict conflictGrid :=
  claimC6_conflict_iff conflictGrid (by decide)

/-- C3, counterexample.  `halfGrid` is a 9-row input with nine entries per
row whose first cell holds the finite non-integer `2.5`; the claim mandates
the RangeError result, but `solveSudoku` accepts the value (the code checks
only `Number.isFinite` and the bounds, never integrality) and returns the
grid as a solution with `2.5` still in it. -/
theorem claimC3_counterexample :
    solveSudoku (JSInput.arr halfGrid) = Outcome.ok halfGrid := by
  have hs : Shape9 halfGrid := by decide
  have hrange : ∀ r, r < 9 → ∀ c, c < 9 → inRangeCell (getCell halfGrid r c) = true := by
    decide
  have hnc : NoConflicts halfGrid := by decide
  rw [solveSudoku_of_pass hs.1 (shape9_sliceAll hs) (validate_pass hs hrange hnc),
    solveBoard_of_full (by decide)]
  rfl

/-- C3, amended.  For a 9-row input whose rows are arrays of nine values and
whose pre-filled cells are conflict-free, `solveSudoku` returns the
RangeError result exactly when some cell fails the code's range check —
i.e. it is not a finite number in [0, 9].  Finite non-integers inside
[0, 9] such as 2.5 pass the check and are not rejected. -/
theorem claimC3_amended (rs : List JSRow) (hs : Shape9 rs) (hnc : NoConflicts rs) :
    solveSudoku (JSInput.arr rs) = Outcome.err rangeMsg ↔
      ∃ r, r < 9 ∧ ∃ c, c < 9 ∧ inRangeCell (getCell rs r c) = false := by
  constructor
  · intro h
    cases hcr : checkRows rs (List.range 9) with
    | ok b3 =>
      exfalso
      obtain ⟨rfl⟩ : b3 = rs := (checkRows_ok_elim (List.range 9) rs b3 hcr).1
      rw [solveSudoku_of_pass hs.1 (shape9_sliceAll hs) hcr] at h
      by_cases hsb : (solveBoard rs).1 = true
      · rw [if_pos hsb] at h
        exact Outcome.noConfusion h
      · rw [if_neg hsb] at h
        exact absurd (Outcome.err.inj h) (by decide)
    | error e =>
      rw [solveSudoku_err_of_checkErr hs.1 (shape9_sliceAll hs) hcr] at h
      obtain ⟨rfl⟩ : e = rangeMsg := Outcome.err.inj h
      obtain ⟨r, hrmem, herr⟩ := checkRows_error_elim (List.range 9) rs hcr
      have hr9 := List.mem_range.mp hrmem
      rcases checkRow_error_elim herr with ⟨_, hlen⟩ | ⟨_, c, hcmem, herr2⟩
      · exact absurd (hs.2 r hr9) hlen
      · rcases checkCell_error_elim herr2 with ⟨_, hbad⟩ | ⟨hmsg, _⟩
        · exact ⟨r, hr9, c, List.mem_range.mp hcmem, hbad⟩
        · exact absurd hmsg.symm (by decide)
  · intro ⟨r, hr, c, hc, hbad⟩
    cases hcr : checkRows rs (List.range 9) with
    | ok b3 =>
      exfalso
      obtain ⟨_, hrows⟩ := checkRows_ok_elim (List.range 9) rs b3 hcr
      obtain ⟨_, _, hcells⟩ := checkRow_ok_elim (hrows r (List.mem_range.mpr hr))
      obtain ⟨_, q, hcell, h1, h2, _⟩ :=
        checkCell_ok_elim (hcells c (List.mem_range.mpr hc))
      rw [hcell, inRangeCell_num_iff.mpr ⟨h1, h2⟩] at hbad
      exact Bool.noConfusion hbad
    | error e =>
      have he : e = rangeMsg := by
        obtain ⟨r2, hr2mem, herr⟩ := checkRows_error_elim (List.range 9) rs hcr
        have hr29 := List.mem_range.mp hr2mem
        rcases checkRow_error_elim herr with ⟨_, hlen⟩ | ⟨_, c2, hc2mem, herr2⟩
        · exact absurd (hs.2 r2 hr29) hlen
        · rcases checkCell_error_elim herr2 with ⟨hmsg, _⟩ | ⟨hmsg, _⟩
          · exact hmsg
          · exfalso
            rw [hmsg] at herr2
            exact (hasConflict_iff_not rs).mp
              (conflict_of_checkCell hr29 (List.mem_range.mp hc2mem) herr2) hnc
      rw [he] at hcr
      exact solveSudoku_err_of_checkErr hs.1 (shape9_sliceAll hs) hcr

theorem claimC3_witness :
    solveSudoku (JSInput.arr tenGrid) = Outcome.err rangeMsg ↔
      ∃ r, r < 9 ∧ ∃ c, c < 9 ∧ inRangeCell (getCell tenGrid r c) = false :=
  claimC3_amended tenGrid (by decide) (by decide)

/-- C5.  The claim says `solveSudoku` returns an ordinary result for every
input and never throws.  It is contradicted by the code itself: for an
array of nine numbers — e.g. `[1, 1, 1, 1, 1, 1, 1, 1, 1]` — the copy step
`rows.map((row) => row.slice())` throws `TypeError: row.slice is not a
function` before the `Array.isArray(board[row])` check (App.jsx line 145),
which was clearly intended to catch exactly such rows, can run. -/
theorem claimC5_code_bug : solveSudoku numbersAsRows = Outcome.thrown := by rfl

/-- Slicing a list of array rows succeeds and copies it unchanged. -/
theorem sliceAll_map_arr :
    ∀ t : List (List JSCell), sliceAll (t.map JSRow.arr) = some (t.map JSRow.arr) := by
  intro t
  induction t with
  | nil => rfl
  | cons x rest ih =>
    simp only [List.map_cons]
    unfold sliceAll
    rw [ih]
    rfl

/-- C4, counterexample.  In `tenThenShortGrid`, row 1 (1-indexed) holds the
out-of-range value `10` and row 3 has only 8 entries.  The claim mandates
ShapeError ("Row 3 must have 9 values."), but the validator interleaves its
checks row by row and reports the row-1 RangeError first. -/
theorem claimC4_counterexample :
    solveSudoku (JSInput.arr tenThenShortGrid) = Outcome.err rangeMsg ∧
      rangeMsg ≠ rowMsg 2 ∧ rangeMsg ≠ nineRowsMsg := by
  refine ⟨by rfl, by decide, by decide⟩

/-- C4, amended.  The 9-row check does run first, but the remaining checks
are interleaved per row: for each row in order, its 9-value length check,
then, cell by cell, the range check immediately followed by that cell's
conflict check.  Consequently (first conjunct) an out-of-range value in
row 1 yields RangeError no matter what any later row looks like — even a
malformed one — and (second conjunct) a conflict among row-1 cells is
reported before an out-of-range value in row 2. -/
theorem claimC4_amended :
    (∀ t : List (List JSCell), t.length = 8 →
      solveSudoku (JSInput.arr (numRow [10, 0, 0, 0, 0, 0, 0, 0, 0] :: t.map JSRow.arr)) =
        Outcome.err rangeMsg) ∧
    solveSudoku (JSInput.arr conflictThenTenGrid) = Outcome.err conflictMsg := by
  constructor
  · intro t ht
    have h9 : (numRow [10, 0, 0, 0, 0, 0, 0, 0, 0] :: t.map JSRow.arr).length = 9 := by
      simp [ht]
    have hslice : sliceAll (numRow [10, 0, 0, 0, 0, 0, 0, 0, 0] :: t.map JSRow.arr) =
        some (numRow [10, 0, 0, 0, 0, 0, 0, 0, 0] :: t.map JSRow.arr) := by
      unfold sliceAll
      rw [sliceAll_map_arr t]
      rfl
    have hcr0 : checkRow (numRow [10, 0, 0, 0, 0, 0, 0, 0, 0] :: t.map JSRow.arr) 0 =
        Except.error rangeMsg := rfl
    have herr : checkRows (numRow [10, 0, 0, 0, 0, 0, 0, 0, 0] :: t.map JSRow.arr)
        (List.range 9) = Except.error rangeMsg := by
      have h09 : List.range 9 = 0 :: [1, 2, 3, 4, 5, 6, 7, 8] := rfl
      rw [h09]
      unfold checkRows
      rw [hcr0]
    exact solveSudoku_err_of_checkErr h9 hslice herr
  · rfl

theorem claimC4_witness :
    solveSudoku (JSInput.arr (numRow [10, 0, 0, 0, 0, 0, 0, 0, 0] ::
      (List.replicate 8 ([] : List JSCell)).map JSRow.arr)) = Outcome.err rangeMsg :=
  claimC4_amended.1 (List.replicate 8 []) (by decide)
